import Mathlib

set_option maxRecDepth 4000

/-!
Shallow embedding of the `ab_housing` cleaning transforms
(`src/ab_housing/cleaning.py`) and proofs about the properties stated in
the design notes.

Tables are lists of rows; pandas `NaN` / `NaT` cells are `Option.none`.
Machine floats in the source hold small decimal values that float
arithmetic represents exactly at the scales involved, so values are
embedded as rationals.
-/

namespace AbHousing

/-- Calendar date, as used for pandas timestamps. -/
structure Date where
  year : Nat
  month : Nat
  day : Nat
deriving DecidableEq, Repr

/-- Strictly monotone encoding of a valid date (month in 1..12, day in 1..31)
into a natural number, used as a sort key. -/
def Date.key (d : Date) : Nat := d.year * 372 + d.month * 31 + d.day

/-- Zero-based month counter (months since year 0), the bin index used by a
monthly `resample`. -/
def Date.monthIdx (d : Date) : Nat := d.year * 12 + (d.month - 1)

/-- Zero-based quarter counter, the bin index used by a quarterly `resample`. -/
def Date.quarterIdx (d : Date) : Nat := d.year * 4 + (d.month - 1) / 3

/-- Gregorian leap-year rule. -/
def isLeapYear (y : Nat) : Bool := (y % 4 == 0 && y % 100 != 0) || (y % 400 == 0)

/-- Number of days in a month, as produced by `pd.offsets.MonthEnd`. -/
def daysInMonth (y m : Nat) : Nat :=
  if m == 2 then (if isLeapYear y then 29 else 28)
  else if m == 4 || m == 6 || m == 9 || m == 11 then 30
  else 31

/-- Month-end date of the month with counter `i`. -/
def monthEndOfIdx (i : Nat) : Date :=
  ⟨i / 12, i % 12 + 1, daysInMonth (i / 12) (i % 12 + 1)⟩

/-- Quarter-end date of the quarter with counter `i`. -/
def quarterEndOfIdx (i : Nat) : Date :=
  ⟨i / 4, (i % 4 + 1) * 3, daysInMonth (i / 4) ((i % 4 + 1) * 3)⟩

/-- Pandas `sort_values` on a numeric key: the output is some permutation of
the input that is sorted by the key (the source never relies on stability). -/
def sortByKey {α : Type} (f : α → Nat) (l : List α) : List α :=
  l.insertionSort (fun a b => f a ≤ f b)

theorem sortByKey_perm {α : Type} (f : α → Nat) (l : List α) :
    List.Perm (sortByKey f l) l :=
  List.perm_insertionSort _ l

theorem sortByKey_sorted {α : Type} (f : α → Nat) (l : List α) :
    (sortByKey f l).Sorted (fun a b => f a ≤ f b) := by
  haveI : IsTotal α (fun a b => f a ≤ f b) := ⟨fun a b => Nat.le_total (f a) (f b)⟩
  haveI : IsTrans α (fun a b => f a ≤ f b) := ⟨fun _ _ _ => Nat.le_trans⟩
  exact List.sorted_insertionSort _ l

/-- Numeric value of a list of decimal digit characters, as `int` parsing. -/
def natOfDigits (l : List Char) : Nat :=
  l.foldl (fun n c => n * 10 + (c.toNat - '0'.toNat)) 0

/-- Rational addition, written in the num/den normal form so that concrete
runs evaluate by kernel reduction; `qadd_eq` states that it is ordinary
addition on `ℚ`. -/
def qadd (a b : ℚ) : ℚ := mkRat (a.num * b.den + b.num * a.den) (a.den * b.den)

/-- Rational subtraction in num/den normal form; see `qsub_eq`. -/
def qsub (a b : ℚ) : ℚ := mkRat (a.num * b.den - b.num * a.den) (a.den * b.den)

/-- Division of a rational by a natural number in num/den normal form; see
`qdivN_eq`. -/
def qdivN (a : ℚ) (n : Nat) : ℚ := mkRat a.num (a.den * n)

/-- Sum of a list of rationals; see `qsum_eq`. -/
def qsum (l : List ℚ) : ℚ := l.foldr qadd 0

theorem qadd_eq (a b : ℚ) : qadd a b = a + b := by
  unfold qadd
  rw [Rat.mkRat_eq_divInt]
  conv_rhs => rw [← Rat.num_divInt_den a, ← Rat.num_divInt_den b]
  rw [Rat.divInt_add_divInt _ _ (Int.natCast_ne_zero.mpr a.den_ne_zero)
    (Int.natCast_ne_zero.mpr b.den_ne_zero)]
  push_cast
  ring_nf

theorem qsub_eq (a b : ℚ) : qsub a b = a - b := by
  unfold qsub
  rw [Rat.mkRat_eq_divInt]
  conv_rhs => rw [← Rat.num_divInt_den a, ← Rat.num_divInt_den b]
  rw [Rat.divInt_sub_divInt _ _ (Int.natCast_ne_zero.mpr a.den_ne_zero)
    (Int.natCast_ne_zero.mpr b.den_ne_zero)]
  push_cast
  ring_nf

theorem qdivN_eq (a : ℚ) (n : Nat) : qdivN a n = a / (n : ℚ) := by
  unfold qdivN
  rw [Rat.mkRat_eq_divInt, Rat.divInt_eq_div]
  push_cast
  rw [← div_div, Rat.num_div_den]

theorem qsum_eq (l : List ℚ) : qsum l = l.sum := by
  induction l with
  | nil => rfl
  | cons a t ih =>
    show qadd a (qsum t) = (a :: t).sum
    rw [qadd_eq, ih, List.sum_cons]

/-- Characters that may appear in an unsigned decimal literal. -/
def isDigitOrDot (c : Char) : Bool := c.isDigit || c == '.'

/-- Value of an unsigned decimal literal: digits with at most one point and
at least one digit; `none` when the text is not of that shape.  This is the
shape of literal accepted by `float` / `pd.to_numeric` on the data at hand
(scientific notation and infinities never occur in these files). -/
def parseUnsigned (l : List Char) : Option ℚ :=
  if l.all isDigitOrDot && decide (l.count '.' ≤ 1) && l.any Char.isDigit then
    some (mkRat (natOfDigits (l.filter (fun c => !(c == '.'))) : Int)
      (10 ^ ((l.dropWhile (fun c => !(c == '.'))).drop 1).length))
  else none

/-- Decimal parsing with an optional leading minus sign. -/
def parseFloat (s : String) : Option ℚ :=
  match s.toList with
  | '-' :: rest => (parseUnsigned rest).map (fun q => -q)
  | l => parseUnsigned l

/-- Drop every comma, as `str.replace(",", "")`. -/
def stripCommas (s : String) : String := ⟨s.toList.filter (fun c => !(c == ','))⟩

/-! ### 1. Bank of Canada policy rate (`clean_boc_policy_rate`) -/

/-- Raw CSV row for the policy-rate file: the date cell after
`pd.to_datetime(..., errors="coerce")` (`none` is `NaT`), and the raw text of
the rate cell. -/
structure RawRateRow where
  date : Option Date
  rate : String

/-- Clean daily row: parsed date and numeric rate. -/
structure RateRow where
  date : Date
  rate : ℚ
deriving DecidableEq, Repr

/-- Month-end snapshot row produced by `resample("M").last()`: the month-end
date and the level (`none` is `NaN`, for a month with no observation). -/
structure MonthRow where
  date : Date
  rate : Option ℚ
deriving DecidableEq, Repr

/-- Embedding of the row filter on line 46 of `cleaning.py`:
`str(x).replace(".", "", 1).isdigit()`.  `removeFirstDot` is
`replace(".", "", 1)`. -/
def removeFirstDot : List Char → List Char
  | [] => []
  | c :: cs => if c == '.' then cs else c :: removeFirstDot cs

/-- The source's numeric-rate test: drop the first point, then `isdigit`
(non-empty and all decimal digits). -/
def isNumericRate (s : String) : Bool :=
  !(removeFirstDot s.toList).isEmpty && (removeFirstDot s.toList).all Char.isDigit

/-- Spec-side characterization (from the spec words, for comparison with
`isNumericRate`): the text of an unsigned decimal literal — only digits and
points, at most one point, at least one digit. -/
def isNonNegDecimal (s : String) : Bool :=
  s.toList.all isDigitOrDot && decide (s.toList.count '.' ≤ 1) &&
    s.toList.any Char.isDigit

/-- Rows kept by the cleaner: numeric-looking rate, then `to_numeric` and
`dropna` on date and rate (lines 46-49). -/
def bocFiltered (rows : List RawRateRow) : List RateRow :=
  rows.filterMap (fun r =>
    if isNumericRate r.rate then
      match r.date, parseFloat r.rate with
      | some d, some q => some ⟨d, q⟩
      | _, _ => none
    else none)

/-- Clean daily series: filtered rows sorted ascending by date (line 49). -/
def bocDaily (rows : List RawRateRow) : List RateRow :=
  sortByKey (fun r => r.date.key) (bocFiltered rows)

/-- Tail of the change-events selection: a row is kept when its rate differs
from the immediately preceding daily row's rate (the `shift(1)` comparison on
lines 53-57). -/
def bocChangesAux (p : RateRow) : List RateRow → List RateRow
  | [] => []
  | r :: rs =>
      if r.rate = p.rate then bocChangesAux r rs else r :: bocChangesAux r rs

/-- Change events: the first daily row is always kept (its `shift`ed rate is
`NaN`, which compares unequal), later rows when the rate changes. -/
def bocChanges : List RateRow → List RateRow
  | [] => []
  | r :: rs => r :: bocChangesAux r rs

/-- First month bin of a daily series (the month of the earliest date). -/
def monthLo (l : List RateRow) : Nat :=
  match l.map (fun r => r.date.monthIdx) with
  | [] => 0
  | m :: ms => ms.foldl Nat.min m

/-- Last month bin of a daily series (the month of the latest date). -/
def monthHi (l : List RateRow) : Nat :=
  match l.map (fun r => r.date.monthIdx) with
  | [] => 0
  | m :: ms => ms.foldl Nat.max m

/-- Embedding of `resample("M").last()` over the sorted daily series: one bin
per calendar month from the first to the last observed month; each bin is
stamped with its month-end date and carries the last observation inside the
month, `NaN` when the month has no observation. -/
def resampleMonthLast (l : List RateRow) : List MonthRow :=
  if l.isEmpty then []
  else
    (List.range (monthHi l + 1 - monthLo l)).map (fun i =>
      ⟨monthEndOfIdx (monthLo l + i),
        ((l.filter (fun r => r.date.monthIdx == monthLo l + i)).map
          (fun r => r.rate)).getLast?⟩)

/-- The whole policy-rate cleaner: daily series, month-end snapshot, change
events. -/
def cleanBocPolicyRate (rows : List RawRateRow) :
    List RateRow × List MonthRow × List RateRow :=
  let daily := bocDaily rows
  (daily, resampleMonthLast daily, bocChanges daily)

/-- Claim-side notion for the month-end snapshot (from the claim words): the
last observation of the daily series dated on or before `d`. -/
def lastOnOrBefore (l : List RateRow) (d : Date) : Option ℚ :=
  ((l.filter (fun r => r.date.key ≤ d.key)).map (fun r => r.rate)).getLast?

/-! ### Lemmas about the numeric-rate filter -/

theorem all_digit_eq_nodot (l : List Char) :
    l.all Char.isDigit = (l.all isDigitOrDot && decide (l.count '.' = 0)) := by
  induction l with
  | nil => rfl
  | cons c cs ih =>
    by_cases hc : c = '.'
    · subst hc
      simp [isDigitOrDot, List.count_cons,
        show ('.' : Char).isDigit = false from by decide]
    · have hb : (c == '.') = false := by simpa using hc
      simp only [List.all_cons, List.count_cons, hb, isDigitOrDot, ih]
      cases hd : c.isDigit <;> simp [hd]

theorem removeFirstDot_all_digit (l : List Char) :
    (removeFirstDot l).all Char.isDigit =
      (l.all isDigitOrDot && decide (l.count '.' ≤ 1)) := by
  induction l with
  | nil => rfl
  | cons c cs ih =>
    by_cases hc : c = '.'
    · subst hc
      have h1 : (removeFirstDot ('.' :: cs)) = cs := by simp [removeFirstDot]
      rw [h1]
      have h2 : (('.' :: cs).count '.' ≤ 1) ↔ (cs.count '.' = 0) := by
        simp [List.count_cons]
      rw [all_digit_eq_nodot cs]
      simp [isDigitOrDot, h2]
    · have hb : (c == '.') = false := by simpa using hc
      have h1 : removeFirstDot (c :: cs) = c :: removeFirstDot cs := by
        simp [removeFirstDot, hb]
      rw [h1]
      simp only [List.all_cons, List.count_cons, hb, isDigitOrDot, ih]
      cases hd : c.isDigit <;> simp [hd]

theorem removeFirstDot_nonempty (l : List Char) (h : l.any Char.isDigit = true) :
    (removeFirstDot l).isEmpty = false := by
  induction l with
  | nil => simp at h
  | cons c cs ih =>
    by_cases hc : c = '.'
    · subst hc
      simp only [removeFirstDot, List.any_cons,
        show ('.' : Char).isDigit = false from by decide, Bool.false_or] at *
      cases cs <;> simp_all [List.isEmpty]
    · have hb : (c == '.') = false := by simpa using hc
      simp [removeFirstDot, hb, List.isEmpty]

theorem removeFirstDot_sublist (l : List Char) : List.Sublist (removeFirstDot l) l := by
  induction l with
  | nil => simp [removeFirstDot]
  | cons c cs ih =>
    by_cases hc : (c == '.') = true
    · rw [removeFirstDot, if_pos hc]
      exact List.sublist_cons_self c cs
    · rw [removeFirstDot, if_neg hc]
      exact List.cons_sublist_cons.mpr ih

theorem isNumericRate_eq_isNonNegDecimal (s : String) :
    isNumericRate s = isNonNegDecimal s := by
  rcases ha : s.toList.any Char.isDigit with _ | _
  · have hr : isNonNegDecimal s = false := by
      unfold isNonNegDecimal; rw [ha]; simp only [Bool.and_false]
    rw [hr]
    cases hrl : removeFirstDot s.toList with
    | nil => unfold isNumericRate; rw [hrl]; rfl
    | cons c cs =>
      have hmem : c ∈ s.toList :=
        (removeFirstDot_sublist s.toList).subset (by rw [hrl]; exact List.mem_cons_self c cs)
      have hcd : c.isDigit = false := by
        cases h : c.isDigit
        · rfl
        · exfalso
          have hd : s.toList.any Char.isDigit = true :=
            List.any_eq_true.mpr ⟨c, hmem, by simp [h]⟩
          rw [hd] at ha; cases ha
      unfold isNumericRate
      rw [hrl]
      simp [hcd]
  · unfold isNumericRate isNonNegDecimal
    rw [removeFirstDot_all_digit, removeFirstDot_nonempty s.toList ha, ha]
    simp [Bool.and_assoc]

/-- C8: the policy-rate cleaner keeps exactly the rows whose rate text is an
unsigned decimal literal.  The source's replace-one-point-then-isdigit test
coincides with the non-negative-decimal characterization (so negative rates
and non-numeric sentinels are dropped), a bare "." is rejected, and the daily
output is a permutation of exactly the rows the filter keeps. -/
theorem boc_rate_filter_decimal :
    (∀ s, isNumericRate s = isNonNegDecimal s) ∧
    isNumericRate "." = false ∧
    (∀ rows, List.Perm (bocDaily rows) (bocFiltered rows)) :=
  ⟨isNumericRate_eq_isNonNegDecimal, by decide, fun _ => sortByKey_perm _ _⟩

theorem bocChangesAux_length :
    ∀ (l : List RateRow) (p : RateRow),
      (bocChangesAux p l).length =
        ((p :: l).zip l).countP (fun q => decide (q.1.rate ≠ q.2.rate))
  | [], _ => rfl
  | r :: rs, p => by
    rw [List.zip_cons_cons, List.countP_cons]
    by_cases h : r.rate = p.rate
    · rw [bocChangesAux, if_pos h, bocChangesAux_length rs r]
      simp [h]
    · rw [bocChangesAux, if_neg h, List.length_cons, bocChangesAux_length rs r]
      have h2 : p.rate ≠ r.rate := fun e => h e.symm
      simp [h2]

/-- Input of the worked example: rate rows (2024-01-01, 5.00),
(2024-01-02, 5.00), (2024-01-03, 5.25). -/
def exC2 : List RawRateRow :=
  [⟨some ⟨2024, 1, 1⟩, "5.00"⟩, ⟨some ⟨2024, 1, 2⟩, "5.00"⟩,
   ⟨some ⟨2024, 1, 3⟩, "5.25"⟩]

/-- C2: for every input the daily series is sorted by non-decreasing date; the
change-events table has one row for the first daily row plus one row per daily
row whose rate differs from its predecessor; and on the worked example the
change events are exactly (2024-01-01, 5.00) and (2024-01-03, 5.25). -/
theorem boc_daily_sorted_changes_count :
    (∀ rows, (bocDaily rows).Sorted (fun a b => a.date.key ≤ b.date.key)) ∧
    (∀ rows, bocDaily rows ≠ [] →
      (bocChanges (bocDaily rows)).length =
        1 + ((bocDaily rows).zip (bocDaily rows).tail).countP
              (fun q => decide (q.1.rate ≠ q.2.rate))) ∧
    (cleanBocPolicyRate exC2).2.2 =
      [⟨⟨2024, 1, 1⟩, 5⟩, ⟨⟨2024, 1, 3⟩, mkRat 21 4⟩] := by
  refine ⟨fun rows => sortByKey_sorted _ _, fun rows h => ?_,
    by decide⟩
  cases hd : bocDaily rows with
  | nil => exact absurd hd h
  | cons r rs =>
    rw [bocChanges, List.length_cons, bocChangesAux_length rs r, List.tail_cons]
    omega

/-- Closed instance of the change-count part of `boc_daily_sorted_changes_count`
at the worked example. -/
theorem boc_daily_sorted_changes_count_witness :
    bocDaily exC2 ≠ [] ∧
    (bocChanges (bocDaily exC2)).length =
      1 + ((bocDaily exC2).zip (bocDaily exC2).tail).countP
            (fun q => decide (q.1.rate ≠ q.2.rate)) :=
  ⟨by decide,
    boc_daily_sorted_changes_count.2.1 exC2 (by decide)⟩

theorem foldl_min_le : ∀ (ms : List Nat) (m : Nat), ms.foldl Nat.min m ≤ m
  | [], m => Nat.le_refl m
  | x :: xs, m =>
      Nat.le_trans (foldl_min_le xs (Nat.min m x)) (Nat.min_le_left m x)

theorem foldl_min_le_mem :
    ∀ (ms : List Nat) (m x : Nat), x ∈ ms → ms.foldl Nat.min m ≤ x
  | y :: ys, m, x, h => by
    rcases List.mem_cons.mp h with rfl | h2
    · exact Nat.le_trans (foldl_min_le ys (Nat.min m x)) (Nat.min_le_right m x)
    · exact foldl_min_le_mem ys (Nat.min m y) x h2

theorem le_foldl_max : ∀ (ms : List Nat) (m : Nat), m ≤ ms.foldl Nat.max m
  | [], m => Nat.le_refl m
  | x :: xs, m =>
      Nat.le_trans (Nat.le_max_left m x) (le_foldl_max xs (Nat.max m x))

theorem le_foldl_max_mem :
    ∀ (ms : List Nat) (m x : Nat), x ∈ ms → x ≤ ms.foldl Nat.max m
  | y :: ys, m, x, h => by
    rcases List.mem_cons.mp h with rfl | h2
    · exact Nat.le_trans (Nat.le_max_right m x) (le_foldl_max ys (Nat.max m x))
    · exact le_foldl_max_mem ys (Nat.max m y) x h2

theorem monthLo_le {l : List RateRow} {r : RateRow} (h : r ∈ l) :
    monthLo l ≤ r.date.monthIdx := by
  cases l with
  | nil => cases h
  | cons a as =>
    show (List.map (fun r => r.date.monthIdx) as).foldl Nat.min a.date.monthIdx ≤ _
    rcases List.mem_cons.mp h with rfl | h2
    · exact foldl_min_le _ _
    · exact foldl_min_le_mem _ _ _ (List.mem_map_of_mem _ h2)

theorem le_monthHi {l : List RateRow} {r : RateRow} (h : r ∈ l) :
    r.date.monthIdx ≤ monthHi l := by
  cases l with
  | nil => cases h
  | cons a as =>
    show _ ≤ (List.map (fun r => r.date.monthIdx) as).foldl Nat.max a.date.monthIdx
    rcases List.mem_cons.mp h with rfl | h2
    · exact le_foldl_max _ _
    · exact le_foldl_max_mem _ _ _ (List.mem_map_of_mem _ h2)

theorem monthIdx_monthEndOfIdx (i : Nat) : (monthEndOfIdx i).monthIdx = i := by
  show i / 12 * 12 + (i % 12 + 1 - 1) = i
  omega

/-- C6 counterexample input: observations on 2024-01-15 and 2024-03-10 only. -/
def exC6 : List RawRateRow :=
  [⟨some ⟨2024, 1, 15⟩, "5.00"⟩, ⟨some ⟨2024, 3, 10⟩, "5.25"⟩]

/-- C6 is false as stated: with observations only in January and March 2024,
the month-end table contains a February row whose level is absent, while the
last observation on or before 2024-02-29 is 5.00; so the table does not hold
the last observation on or before each month's end. -/
theorem boc_monthly_gap_cex :
    (cleanBocPolicyRate exC6).2.1 =
      [⟨⟨2024, 1, 31⟩, some 5⟩, ⟨⟨2024, 2, 29⟩, none⟩,
       ⟨⟨2024, 3, 31⟩, some (mkRat 21 4)⟩] ∧
    lastOnOrBefore (cleanBocPolicyRate exC6).1 ⟨2024, 2, 29⟩ = some 5 ∧
    ¬ (∀ m ∈ (cleanBocPolicyRate exC6).2.1,
        m.rate = lastOnOrBefore (cleanBocPolicyRate exC6).1 m.date) := by
  refine ⟨by decide, by decide, fun h => ?_⟩
  have hm := h ⟨⟨2024, 2, 29⟩, none⟩ (by decide)
  rw [show lastOnOrBefore (cleanBocPolicyRate exC6).1 ⟨2024, 2, 29⟩ = some 5
    from by decide] at hm
  cases hm

/-- Characterization of the month-end resample bins. -/
theorem resampleMonthLast_spec (l : List RateRow) :
    ((resampleMonthLast l).map (fun m => m.date.monthIdx)).Sorted (· < ·) ∧
    (∀ m ∈ resampleMonthLast l,
      m.rate = ((l.filter
          (fun r => r.date.monthIdx == m.date.monthIdx)).map
            (fun r => r.rate)).getLast?) ∧
    (∀ r ∈ l, ∃ m ∈ resampleMonthLast l,
      m.date.monthIdx = r.date.monthIdx) := by
  by_cases he : l.isEmpty
  · have hnil : l = [] := by
      cases l with
      | nil => rfl
      | cons a as => simp [List.isEmpty] at he
    subst hnil
    rw [resampleMonthLast]
    exact ⟨List.sorted_nil, fun m hm => absurd hm (List.not_mem_nil m),
      fun r hr => absurd hr (List.not_mem_nil r)⟩
  · rw [resampleMonthLast, if_neg he]
    refine ⟨?_, fun m hmem => ?_, fun r hr => ?_⟩
    · rw [List.map_map]
      have : ((fun m : MonthRow => m.date.monthIdx) ∘ fun i =>
          (⟨monthEndOfIdx (monthLo l + i),
            ((l.filter (fun r => r.date.monthIdx == monthLo l + i)).map
              (fun r => r.rate)).getLast?⟩ : MonthRow)) =
          fun i => monthLo l + i := by
        funext i
        exact monthIdx_monthEndOfIdx _
      rw [this]
      exact List.Pairwise.map _ (fun a b h => by omega)
        (List.pairwise_lt_range _)
    · rcases List.mem_map.mp hmem with ⟨i, _, rfl⟩
      rw [monthIdx_monthEndOfIdx]
    · refine ⟨⟨monthEndOfIdx (monthLo l + (r.date.monthIdx - monthLo l)),
        ((l.filter (fun x =>
            x.date.monthIdx == monthLo l + (r.date.monthIdx - monthLo l))).map
          (fun x => x.rate)).getLast?⟩, ?_, ?_⟩
      · refine List.mem_map.mpr ⟨r.date.monthIdx - monthLo l, ?_, rfl⟩
        refine List.mem_range.mpr ?_
        have h1 := monthLo_le hr
        have h2 := le_monthHi hr
        omega
      · rw [monthIdx_monthEndOfIdx]
        have h1 := monthLo_le hr
        omega

/-- C6 amended: the month-end table has one row per calendar month, months
strictly increasing, from the first to the last observed month; each row holds
the last observation falling inside its own month (absent when the month has
no observation, not carried forward); and every observed month is covered by
a row. -/
theorem boc_monthly_last_in_month (rows : List RawRateRow) :
    ((cleanBocPolicyRate rows).2.1.map (fun m => m.date.monthIdx)).Sorted (· < ·) ∧
    (∀ m ∈ (cleanBocPolicyRate rows).2.1,
      m.rate = (((bocDaily rows).filter
          (fun r => r.date.monthIdx == m.date.monthIdx)).map
            (fun r => r.rate)).getLast?) ∧
    (∀ r ∈ bocDaily rows, ∃ m ∈ (cleanBocPolicyRate rows).2.1,
      m.date.monthIdx = r.date.monthIdx) :=
  resampleMonthLast_spec (bocDaily rows)

/-- Closed instance of `boc_monthly_last_in_month` at the gap example: the
March row holds the last observation inside March. -/
theorem boc_monthly_last_in_month_witness :
    (⟨⟨2024, 3, 31⟩, some (mkRat 21 4)⟩ : MonthRow) ∈ (cleanBocPolicyRate exC6).2.1 ∧
    (⟨⟨2024, 3, 31⟩, some (mkRat 21 4)⟩ : MonthRow).rate =
      (((bocDaily exC6).filter
          (fun r => r.date.monthIdx == (⟨⟨2024, 3, 31⟩, some (mkRat 21 4)⟩ : MonthRow).date.monthIdx)).map
            (fun r => r.rate)).getLast? :=
  ⟨by decide,
    (boc_monthly_last_in_month exC6).2.1 _ (by decide)⟩

/-! ### 2. Alberta housing starts (`clean_housing_starts`) -/

/-- Raw CSV row for the housing-starts file: the geography label and the
month-label columns with their raw cells (`none` is an empty cell, read as
`NaN`). -/
structure StartsRawRow where
  geography : String
  cells : List (String × Option String)

/-- Monthly output row: parsed month-end date (`none` is `NaT`) and coerced
value (`none` is `NaN`). -/
structure MonthlyRow where
  date : Option Date
  value : Option ℚ
deriving DecidableEq, Repr

/-- Quarterly output row: quarter-end date and mean value (`none` is `NaN`). -/
structure QuarterRow where
  quarter : Date
  value : Option ℚ
deriving DecidableEq, Repr

/-- Leading and trailing whitespace removal, as python `str.strip()`. -/
def stripChars (l : List Char) : List Char :=
  ((l.dropWhile Char.isWhitespace).reverse.dropWhile Char.isWhitespace).reverse

/-- Python `str.strip()` on a string. -/
def strip (s : String) : String := ⟨stripChars s.toList⟩

/-- Case/whitespace normalization `str.strip().str.lower()` (ASCII data). -/
def toLowerTrim (s : String) : String := ⟨(stripChars s.toList).map Char.toLower⟩

/-- Month number of a `%b` month abbreviation. -/
def monthOfAbbrev (s : String) : Option Nat :=
  if s == "Jan" then some 1 else if s == "Feb" then some 2
  else if s == "Mar" then some 3 else if s == "Apr" then some 4
  else if s == "May" then some 5 else if s == "Jun" then some 6
  else if s == "Jul" then some 7 else if s == "Aug" then some 8
  else if s == "Sep" then some 9 else if s == "Oct" then some 10
  else if s == "Nov" then some 11 else if s == "Dec" then some 12
  else none

/-- Parse a month-label column like "Jan-00": the source appends "-01", parses
with format "%b-%y-%d" (coercing failures to `NaT`), and shifts to month end.
Two-digit years map to 2000-2068 and 1969-1999, the strptime pivot. -/
def parseMonthLabel (s : String) : Option Date :=
  match s.toList with
  | [a, b, c, '-', y1, y2] =>
    match monthOfAbbrev ⟨[a, b, c]⟩ with
    | some m =>
      if y1.isDigit && y2.isDigit then
        let yy := (y1.toNat - '0'.toNat) * 10 + (y2.toNat - '0'.toNat)
        let year := if yy ≤ 68 then 2000 + yy else 1900 + yy
        some ⟨year, m, daysInMonth year m⟩
      else none
    | none => none
  | _ => none

/-- Melt of the matched geography rows into (label, raw value) pairs, with the
`dropna` on the raw value column (line 92): pairs with a missing cell are
dropped here, before numeric coercion.  The later sort fixes the row order, so
the melt is written row-major. -/
def startsMelt (ab : List StartsRawRow) : List (String × String) :=
  ab.flatMap (fun r => r.cells.filterMap (fun c => c.2.map (fun v => (c.1, v))))

/-- Monthly rows before sorting: parse the label to a month-end date
(`errors="coerce"`), coerce the value to numeric (`errors="coerce"`). -/
def startsMonthly0 (ab : List StartsRawRow) : List MonthlyRow :=
  (startsMelt ab).map (fun p => ⟨parseMonthLabel p.1, parseFloat p.2⟩)

/-- Monthly table: sorted by date with `NaT` rows last, as `sort_values`. -/
def startsMonthly (ab : List StartsRawRow) : List MonthlyRow :=
  sortByKey (fun r => ((r.date).map Date.key).getD 0)
      ((startsMonthly0 ab).filter (fun r => r.date.isSome)) ++
    (startsMonthly0 ab).filter (fun r => !r.date.isSome)

/-- First quarter bin among the dated monthly rows. -/
def quarterLo (l : List MonthlyRow) : Nat :=
  match l.filterMap (fun r => r.date.map Date.quarterIdx) with
  | [] => 0
  | m :: ms => ms.foldl Nat.min m

/-- Last quarter bin among the dated monthly rows. -/
def quarterHi (l : List MonthlyRow) : Nat :=
  match l.filterMap (fun r => r.date.map Date.quarterIdx) with
  | [] => 0
  | m :: ms => ms.foldl Nat.max m

/-- Embedding of `resample("Q").mean(numeric_only=True)`: one bin per quarter
from the first to the last observed quarter; the bin value is the mean of the
present monthly values inside the quarter, `NaN` when there are none (empty
bins between observed quarters are emitted, not skipped). -/
def quarterContrib (l : List MonthlyRow) (q : Nat) : List ℚ :=
  (l.filter (fun r => r.date.map Date.quarterIdx == some q)).filterMap
    (fun r => r.value)

/-- Mean with pandas `skipna` semantics over the present values of a bin:
`NaN` for an empty list. -/
def meanOpt (vs : List ℚ) : Option ℚ :=
  if vs.isEmpty then none else some (qdivN (qsum vs) vs.length)

def resampleQuarterMean (l : List MonthlyRow) : List QuarterRow :=
  if (l.filterMap (fun r => r.date.map Date.quarterIdx)).isEmpty then []
  else
    (List.range (quarterHi l + 1 - quarterLo l)).map (fun i =>
      ⟨quarterEndOfIdx (quarterLo l + i),
        meanOpt (quarterContrib l (quarterLo l + i))⟩)

/-- The whole housing-starts cleaner: locate the target geography rows (a
lookup error when absent, line 87), melt, parse, sort, and aggregate. -/
def cleanHousingStarts (rows : List StartsRawRow) :
    Option (List MonthlyRow × List QuarterRow) :=
  if (rows.filter (fun r => toLowerTrim r.geography == "alberta")).isEmpty then
    none
  else
    some (startsMonthly (rows.filter (fun r => toLowerTrim r.geography == "alberta")),
      resampleQuarterMean
        (startsMonthly (rows.filter (fun r => toLowerTrim r.geography == "alberta"))))

theorem quarterLo_le {l : List MonthlyRow} {x : Nat}
    (h : x ∈ l.filterMap (fun r => r.date.map Date.quarterIdx)) :
    quarterLo l ≤ x := by
  unfold quarterLo
  cases hfm : l.filterMap (fun r => r.date.map Date.quarterIdx) with
  | nil => rw [hfm] at h; cases h
  | cons m ms =>
    rw [hfm] at h
    rcases List.mem_cons.mp h with rfl | h2
    · exact foldl_min_le _ _
    · exact foldl_min_le_mem _ _ _ h2

theorem le_quarterHi {l : List MonthlyRow} {x : Nat}
    (h : x ∈ l.filterMap (fun r => r.date.map Date.quarterIdx)) :
    x ≤ quarterHi l := by
  unfold quarterHi
  cases hfm : l.filterMap (fun r => r.date.map Date.quarterIdx) with
  | nil => rw [hfm] at h; cases h
  | cons m ms =>
    rw [hfm] at h
    rcases List.mem_cons.mp h with rfl | h2
    · exact le_foldl_max _ _
    · exact le_foldl_max_mem _ _ _ h2

theorem quarterIdx_quarterEndOfIdx (i : Nat) :
    (quarterEndOfIdx i).quarterIdx = i := by
  show i / 4 * 4 + ((i % 4 + 1) * 3 - 1) / 3 = i
  omega

/-- Characterization of the quarterly resample bins. -/
theorem resampleQuarterMean_spec (l : List MonthlyRow) :
    ((resampleQuarterMean l).map (fun r => r.quarter.quarterIdx)).Sorted (· < ·) ∧
    (∀ qr ∈ resampleQuarterMean l,
      qr.value = meanOpt (quarterContrib l qr.quarter.quarterIdx)) ∧
    (∀ r ∈ l, ∀ d, r.date = some d →
      ∃ qr ∈ resampleQuarterMean l, qr.quarter.quarterIdx = d.quarterIdx) := by
  by_cases he : (l.filterMap (fun r => r.date.map Date.quarterIdx)).isEmpty
  · rw [resampleQuarterMean, if_pos he]
    refine ⟨List.sorted_nil, fun qr h => absurd h (List.not_mem_nil qr),
      fun r hr d hd => ?_⟩
    have hmem : d.quarterIdx ∈ l.filterMap (fun r => r.date.map Date.quarterIdx) :=
      List.mem_filterMap.mpr ⟨r, hr, by rw [hd]; rfl⟩
    cases hfm : l.filterMap (fun r => r.date.map Date.quarterIdx) with
    | nil => rw [hfm] at hmem; cases hmem
    | cons a as => rw [hfm] at he; simp [List.isEmpty] at he
  · rw [resampleQuarterMean, if_neg he]
    refine ⟨?_, fun qr hmem => ?_, fun r hr d hd => ?_⟩
    · rw [List.map_map]
      have hfn : ((fun r : QuarterRow => r.quarter.quarterIdx) ∘ fun i =>
          (⟨quarterEndOfIdx (quarterLo l + i),
            meanOpt (quarterContrib l (quarterLo l + i))⟩ : QuarterRow)) =
          fun i => quarterLo l + i := by
        funext i
        exact quarterIdx_quarterEndOfIdx _
      rw [hfn]
      exact List.Pairwise.map _ (fun a b h => by omega)
        (List.pairwise_lt_range _)
    · rcases List.mem_map.mp hmem with ⟨i, _, rfl⟩
      rw [quarterIdx_quarterEndOfIdx]
    · have hmem : d.quarterIdx ∈ l.filterMap (fun r => r.date.map Date.quarterIdx) :=
        List.mem_filterMap.mpr ⟨r, hr, by rw [hd]; rfl⟩
      have h1 := quarterLo_le hmem
      have h2 := le_quarterHi hmem
      refine ⟨⟨quarterEndOfIdx (quarterLo l + (d.quarterIdx - quarterLo l)),
        meanOpt (quarterContrib l (quarterLo l + (d.quarterIdx - quarterLo l)))⟩, ?_, ?_⟩
      · exact List.mem_map.mpr ⟨d.quarterIdx - quarterLo l,
          List.mem_range.mpr (by omega), rfl⟩
      · rw [quarterIdx_quarterEndOfIdx]
        omega

/-- Worked-example input: Alberta monthly starts 28000, 30000, 31000 for the
three months of Q1 2024. -/
def exC3q1 : List StartsRawRow :=
  [⟨"Alberta", [("Jan-24", some "28000"), ("Feb-24", some "30000"),
    ("Mar-24", some "31000")]⟩]

/-- Gap input: Alberta observations only in 2024Q1 and 2024Q3. -/
def exC3gap : List StartsRawRow :=
  [⟨"Alberta", [("Jan-24", some "28000"), ("Jul-24", some "30000")]⟩]

/-- C3 is false as stated: with monthly observations only in Q1 and Q3 of
2024, the quarterly output contains a 2024Q2 row although not a single
monthly observation falls in that quarter (its value is the absent marker). -/
theorem starts_quarterly_gap_cex :
    cleanHousingStarts exC3gap =
      some ([⟨some ⟨2024, 1, 31⟩, some 28000⟩, ⟨some ⟨2024, 7, 31⟩, some 30000⟩],
            [⟨⟨2024, 3, 31⟩, some 28000⟩, ⟨⟨2024, 6, 30⟩, none⟩,
             ⟨⟨2024, 9, 30⟩, some 30000⟩]) ∧
    quarterContrib
      [⟨some ⟨2024, 1, 31⟩, some 28000⟩, ⟨some ⟨2024, 7, 31⟩, some 30000⟩]
      ((⟨2024, 6, 30⟩ : Date).quarterIdx) = [] :=
  ⟨by decide, by decide⟩

/-- C3 amended: the quarterly table has one row per quarter, strictly
increasing, from the first to the last observed quarter (so a quarter with no
contributing observation inside the observed span appears with an absent
value, rather than being omitted); each row's value is the arithmetic mean of
exactly the present monthly values falling in its quarter, absent when there
are none; every observed quarter has a row; and the Q1-2024 worked example
yields the quarterly mean 89000/3 (which prints as 29666.67 at two decimals). -/
theorem starts_quarterly_resample_spec :
    (∀ rows m q, cleanHousingStarts rows = some (m, q) →
      ((q.map (fun r => r.quarter.quarterIdx)).Sorted (· < ·)) ∧
      (∀ qr ∈ q, qr.value = meanOpt (quarterContrib m qr.quarter.quarterIdx)) ∧
      (∀ r ∈ m, ∀ d, r.date = some d →
        ∃ qr ∈ q, qr.quarter.quarterIdx = d.quarterIdx)) ∧
    cleanHousingStarts exC3q1 =
      some ([⟨some ⟨2024, 1, 31⟩, some 28000⟩, ⟨some ⟨2024, 2, 29⟩, some 30000⟩,
             ⟨some ⟨2024, 3, 31⟩, some 31000⟩],
            [⟨⟨2024, 3, 31⟩, some (mkRat 89000 3)⟩]) := by
  refine ⟨fun rows m q h => ?_, by decide⟩
  unfold cleanHousingStarts at h
  by_cases he : (rows.filter (fun r => toLowerTrim r.geography == "alberta")).isEmpty
  · rw [if_pos he] at h; cases h
  · rw [if_neg he] at h
    rw [Option.some_inj, Prod.mk.injEq] at h
    obtain ⟨rfl, rfl⟩ := h
    exact resampleQuarterMean_spec _

/-- Closed instance of `starts_quarterly_resample_spec` at the worked example:
the 2024Q1 row carries the mean of the three contributing months. -/
theorem starts_quarterly_resample_spec_witness :
    cleanHousingStarts exC3q1 =
      some ([⟨some ⟨2024, 1, 31⟩, some 28000⟩, ⟨some ⟨2024, 2, 29⟩, some 30000⟩,
             ⟨some ⟨2024, 3, 31⟩, some 31000⟩],
            [⟨⟨2024, 3, 31⟩, some (mkRat 89000 3)⟩]) ∧
    (⟨⟨2024, 3, 31⟩, some (mkRat 89000 3)⟩ : QuarterRow).value =
      meanOpt (quarterContrib
        [⟨some ⟨2024, 1, 31⟩, some 28000⟩, ⟨some ⟨2024, 2, 29⟩, some 30000⟩,
         ⟨some ⟨2024, 3, 31⟩, some 31000⟩]
        (⟨⟨2024, 3, 31⟩, some (mkRat 89000 3)⟩ : QuarterRow).quarter.quarterIdx) :=
  ⟨by decide,
    ((starts_quarterly_resample_spec.1 exC3q1
      [⟨some ⟨2024, 1, 31⟩, some 28000⟩, ⟨some ⟨2024, 2, 29⟩, some 30000⟩,
       ⟨some ⟨2024, 3, 31⟩, some 31000⟩]
      [⟨⟨2024, 3, 31⟩, some (mkRat 89000 3)⟩]
      (by decide)).2.1 ⟨⟨2024, 3, 31⟩, some (mkRat 89000 3)⟩ (by decide))⟩

/-- Unparseable-value input: one Alberta cell holding the text "abc". -/
def exC9 : List StartsRawRow := [⟨"Alberta", [("Jan-24", some "abc")]⟩]

/-- C9 is false as stated: the value "abc" fails numeric coercion, yet its
(month-label, value) pair is retained in the monthly output as a row with an
absent-value marker; only pairs with a missing raw cell are dropped (the
`dropna` runs before the coercion). -/
theorem starts_value_marker_cex :
    cleanHousingStarts exC9 =
      some ([⟨some ⟨2024, 1, 31⟩, none⟩], [⟨⟨2024, 3, 31⟩, none⟩]) ∧
    parseFloat "abc" = none :=
  ⟨by decide, by decide⟩

/-- C9 amended: a (month-label, value) pair is dropped from the monthly output
iff its raw cell is missing (empty, read as `NaN`); every other pair is
retained, carrying the coercion result as its value — an absent marker when
the text does not coerce, the number otherwise. -/
theorem starts_melt_retention :
    ∀ rows m q, cleanHousingStarts rows = some (m, q) →
      List.Perm m
        ((rows.filter (fun r => toLowerTrim r.geography == "alberta")).flatMap
          (fun r => r.cells.filterMap (fun c =>
            c.2.map (fun v => (⟨parseMonthLabel c.1, parseFloat v⟩ : MonthlyRow))))) := by
  intro rows m q h
  unfold cleanHousingStarts at h
  by_cases he : (rows.filter (fun r => toLowerTrim r.geography == "alberta")).isEmpty
  · rw [if_pos he] at h; cases h
  · rw [if_neg he] at h
    rw [Option.some_inj, Prod.mk.injEq] at h
    obtain ⟨rfl, rfl⟩ := h
    have h1 : List.Perm
        (startsMonthly (rows.filter (fun r => toLowerTrim r.geography == "alberta")))
        (startsMonthly0 (rows.filter (fun r => toLowerTrim r.geography == "alberta"))) := by
      unfold startsMonthly
      exact ((sortByKey_perm _ _).append (List.Perm.refl _)).trans
        (List.filter_append_perm _ _)
    have h2 : startsMonthly0 (rows.filter (fun r => toLowerTrim r.geography == "alberta")) =
        (rows.filter (fun r => toLowerTrim r.geography == "alberta")).flatMap
          (fun r => r.cells.filterMap (fun c =>
            c.2.map (fun v => (⟨parseMonthLabel c.1, parseFloat v⟩ : MonthlyRow)))) := by
      unfold startsMonthly0 startsMelt
      rw [List.map_flatMap]
      congr 1
      funext r
      rw [List.map_filterMap]
      congr 1
      funext c
      cases c.2 <;> rfl
    rw [← h2]
    exact h1

/-- Closed instance of `starts_melt_retention` at the unparseable-value
example. -/
theorem starts_melt_retention_witness :
    cleanHousingStarts exC9 =
      some ([⟨some ⟨2024, 1, 31⟩, none⟩], [⟨⟨2024, 3, 31⟩, none⟩]) ∧
    List.Perm [(⟨some ⟨2024, 1, 31⟩, none⟩ : MonthlyRow)]
      ((exC9.filter (fun r => toLowerTrim r.geography == "alberta")).flatMap
        (fun r => r.cells.filterMap (fun c =>
          c.2.map (fun v => (⟨parseMonthLabel c.1, parseFloat v⟩ : MonthlyRow))))) :=
  ⟨by decide,
    starts_melt_retention exC9 [⟨some ⟨2024, 1, 31⟩, none⟩] [⟨⟨2024, 3, 31⟩, none⟩]
      (by decide)⟩

/-! ### 3. International migration (`clean_international_migration`) -/

/-- Raw CSV row after column-name normalization: the reference period label
and the raw texts of the three count columns. -/
structure MigRawRow where
  reference_period : String
  immigrants : String
  net_emigration : String
  net_non_permanent_residents : String

/-- Wide output row (line 144), in the emitted column order. -/
structure MigWideRow where
  quarter : Date
  immigrants : Option ℚ
  net_non_permanent_residents : Option ℚ
  net_emigration : Option ℚ
  total_pressure : Option ℚ
deriving DecidableEq, Repr

/-- Long output row (lines 148-151). -/
structure MigLongRow where
  geo : String
  quarter : Date
  component : String
  value : Option ℚ
deriving DecidableEq, Repr

/-- Parse a reference period like "Q1 2025" to its quarter-end date: the
source strips the label, rewrites the regex `Q(\d)\s+(\d{4})` to `\2Q\1` and
builds a quarterly `PeriodIndex`, which raises unless the quarter digit is
1-4.  Labels not of this canonical shape are a parse failure (`PeriodIndex`
raises on them), failing the whole cleaner. -/
def parseRefPeriod (s : String) : Option Date :=
  match stripChars s.toList with
  | c :: d :: rest =>
    if c == 'Q' && d.isDigit &&
        !((rest.takeWhile (fun x => x == ' ')).isEmpty) &&
        decide ((rest.dropWhile (fun x => x == ' ')).length = 4) &&
        (rest.dropWhile (fun x => x == ' ')).all Char.isDigit then
      if 1 ≤ d.toNat - '0'.toNat ∧ d.toNat - '0'.toNat ≤ 4 then
        some ⟨natOfDigits (rest.dropWhile (fun x => x == ' ')),
          (d.toNat - '0'.toNat) * 3,
          daysInMonth (natOfDigits (rest.dropWhile (fun x => x == ' ')))
            ((d.toNat - '0'.toNat) * 3)⟩
      else none
    else none
  | _ => none

/-- Count-column cleaning (lines 136-140): the placeholder tokens ".." and
"..." become absent, commas are stripped, then numeric coercion with failures
absent. -/
def migValue (s : String) : Option ℚ :=
  if s == ".." || s == "..." then none
  else parseFloat (stripCommas s)

/-- One wide row (lines 133-142): `total_pressure` is the sum of `immigrants`
and `net_non_permanent_residents`, absent values propagating. -/
def migRow (r : MigRawRow) : Option MigWideRow :=
  (parseRefPeriod r.reference_period).map (fun q =>
    ⟨q, migValue r.immigrants, migValue r.net_non_permanent_residents,
      migValue r.net_emigration,
      (migValue r.immigrants).bind (fun a =>
        (migValue r.net_non_permanent_residents).map (fun b => qadd a b))⟩)

/-- All wide rows; the `PeriodIndex` construction is vectorized, so one bad
label fails the whole cleaner. -/
def migRows : List MigRawRow → Option (List MigWideRow)
  | [] => some []
  | r :: rs =>
    match migRow r, migRows rs with
    | some w, some ws => some (w :: ws)
    | _, _ => none

/-- Wide column order of the melt (line 145). -/
def migComponents : List String :=
  ["immigrants", "net_non_permanent_residents", "net_emigration",
   "total_pressure"]

/-- Value of a wide row under a component column name. -/
def migGet (w : MigWideRow) (c : String) : Option ℚ :=
  if c == "immigrants" then w.immigrants
  else if c == "net_non_permanent_residents" then w.net_non_permanent_residents
  else if c == "net_emigration" then w.net_emigration
  else w.total_pressure

/-- Pandas melt of the wide table (line 149): one block per component column
in wide column order, each row tagged with geo "Alberta". -/
def meltWide (ws : List MigWideRow) : List MigLongRow :=
  migComponents.flatMap (fun c =>
    ws.map (fun w => ⟨"Alberta", w.quarter, c, migGet w c⟩))

/-- Alphabetical rank of the four component names, the order `sort_values` by
the component string produces on them. -/
def compRank (c : String) : Nat :=
  if c == "immigrants" then 0
  else if c == "net_emigration" then 1
  else if c == "net_non_permanent_residents" then 2
  else 3

/-- Sort key of the long table: quarter first, then component name. -/
def longKey (e : MigLongRow) : Nat := e.quarter.key * 4 + compRank e.component

/-- The whole international-migration cleaner: wide table sorted by quarter,
long table sorted by quarter then component. -/
def cleanIntlMigration (rows : List MigRawRow) :
    Option (List MigWideRow × List MigLongRow) :=
  (migRows rows).map (fun ws =>
    (sortByKey (fun w => w.quarter.key) ws,
     sortByKey longKey (meltWide (sortByKey (fun w => w.quarter.key) ws))))

/-- Tail of first-occurrence deduplication: keep an element unless it was
already seen. -/
def dedupAux {α : Type} [DecidableEq α] (seen : List α) : List α → List α
  | [] => []
  | a :: l =>
      if a ∈ seen then dedupAux seen l else a :: dedupAux (a :: seen) l

/-- First-occurrence deduplication, modelling a pivot index built in order of
appearance. -/
def dedupF {α : Type} [DecidableEq α] (l : List α) : List α := dedupAux [] l

theorem mem_dedupAux {α : Type} [DecidableEq α] :
    ∀ (l seen : List α) (x : α),
      (x ∈ dedupAux seen l ↔ x ∈ l ∧ x ∉ seen)
  | [], seen, x => by simp [dedupAux]
  | a :: l, seen, x => by
    rw [dedupAux]
    by_cases ha : a ∈ seen
    · rw [if_pos ha, mem_dedupAux l seen x]
      constructor
      · exact fun ⟨h1, h2⟩ => ⟨List.mem_cons_of_mem a h1, h2⟩
      · rintro ⟨h1, h2⟩
        rcases List.mem_cons.mp h1 with rfl | h3
        · exact absurd ha h2
        · exact ⟨h3, h2⟩
    · rw [if_neg ha]
      constructor
      · intro hx
        rcases List.mem_cons.mp hx with rfl | h3
        · exact ⟨List.mem_cons_self x l, ha⟩
        · have := (mem_dedupAux l (a :: seen) x).mp h3
          exact ⟨List.mem_cons_of_mem a this.1,
            fun hs => this.2 (List.mem_cons_of_mem a hs)⟩
      · rintro ⟨h1, h2⟩
        rcases List.mem_cons.mp h1 with rfl | h3
        · exact List.mem_cons_self x _
        · by_cases hxa : x = a
          · subst hxa; exact List.mem_cons_self x _
          · exact List.mem_cons_of_mem a ((mem_dedupAux l (a :: seen) x).mpr
              ⟨h3, fun hs => (List.mem_cons.mp hs).elim hxa h2⟩)

theorem mem_dedupF {α : Type} [DecidableEq α] (l : List α) (x : α) :
    x ∈ dedupF l ↔ x ∈ l := by
  rw [dedupF, mem_dedupAux]
  simp

theorem nodup_dedupAux {α : Type} [DecidableEq α] :
    ∀ (l seen : List α), (dedupAux seen l).Nodup
  | [], seen => List.nodup_nil
  | a :: l, seen => by
    rw [dedupAux]
    by_cases ha : a ∈ seen
    · rw [if_pos ha]; exact nodup_dedupAux l seen
    · rw [if_neg ha]
      refine List.Nodup.cons ?_ (nodup_dedupAux l (a :: seen))
      intro hmem
      exact ((mem_dedupAux l (a :: seen) a).mp hmem).2 (List.mem_cons_self a seen)

theorem nodup_dedupF {α : Type} [DecidableEq α] (l : List α) :
    (dedupF l).Nodup := nodup_dedupAux l []

/-- Cell of the pivoted table (from the claim words): the value of the long
entry at the given quarter and component, absent when there is none. -/
def pivotGet (l : List MigLongRow) (q : Date) (c : String) : Option ℚ :=
  (l.find? (fun e => e.quarter == q && e.component == c)).bind (fun e => e.value)

/-- Pivot of the long table back to wide on the component column (from the
claim words): one row per distinct quarter in order of appearance, one column
per component. -/
def pivotSpecMig (l : List MigLongRow) : List MigWideRow :=
  (dedupF (l.map (fun e => e.quarter))).map (fun q =>
    ⟨q, pivotGet l q "immigrants", pivotGet l q "net_non_permanent_residents",
      pivotGet l q "net_emigration", pivotGet l q "total_pressure"⟩)

theorem migRows_total :
    ∀ (rows : List MigRawRow) (ws : List MigWideRow), migRows rows = some ws →
      ∀ r ∈ ws, r.total_pressure = r.immigrants.bind (fun a =>
        r.net_non_permanent_residents.map (fun b => qadd a b))
  | [], ws, h => by
    rw [migRows, Option.some_inj] at h
    subst h
    exact fun r hr => absurd hr (List.not_mem_nil r)
  | r0 :: rs, ws, h => by
    rw [migRows] at h
    cases hm : migRow r0 with
    | none => rw [hm] at h; cases h
    | some w0 =>
      cases hms : migRows rs with
      | none => rw [hm, hms] at h; cases h
      | some ws' =>
        rw [hm, hms, Option.some_inj] at h
        subst h
        intro r hr
        rcases List.mem_cons.mp hr with rfl | h2
        · unfold migRow at hm
          cases hp : parseRefPeriod r0.reference_period with
          | none => rw [hp] at hm; cases hm
          | some q =>
            rw [hp] at hm
            simp only [Option.map_some'] at hm
            rw [Option.some_inj] at hm
            subst hm
            rfl
        · exact migRows_total rs ws' hms r h2

/-- C1: in every successful run, each wide row's total_pressure is exactly
immigrants + net_non_permanent_residents when both are present, absent when
either is absent, and in all cases a function of those two fields alone —
net_emigration never contributes. -/
theorem mig_total_pressure_sum :
    ∀ rows w l, cleanIntlMigration rows = some (w, l) →
      ∀ r ∈ w,
        r.total_pressure = r.immigrants.bind (fun a =>
          r.net_non_permanent_residents.map (fun b => a + b)) ∧
        (∀ a b, r.immigrants = some a → r.net_non_permanent_residents = some b →
          r.total_pressure = some (a + b)) ∧
        ((r.immigrants = none ∨ r.net_non_permanent_residents = none) →
          r.total_pressure = none) := by
  intro rows w l h
  unfold cleanIntlMigration at h
  cases hms : migRows rows with
  | none => rw [hms] at h; cases h
  | some ws =>
    rw [hms] at h
    simp only [Option.map_some'] at h
    rw [Option.some_inj, Prod.mk.injEq] at h
    obtain ⟨rfl, rfl⟩ := h
    intro r hr
    have hr2 : r ∈ ws := (sortByKey_perm _ _).subset hr
    have ht := migRows_total rows ws hms r hr2
    have ht2 : r.total_pressure = r.immigrants.bind (fun a =>
        r.net_non_permanent_residents.map (fun b => a + b)) := by
      rw [ht]
      cases r.immigrants <;> cases r.net_non_permanent_residents <;>
        simp [qadd_eq]
    refine ⟨ht2, fun a b ha hb => ?_, fun hn => ?_⟩
    · rw [ht2, ha, hb]; rfl
    · rcases hn with hn | hn
      · rw [ht2, hn]; rfl
      · rw [ht2, hn]
        cases r.immigrants <;> rfl

/-- Example input with an out-of-order quarter and a ".." placeholder. -/
def exC1 : List MigRawRow :=
  [⟨"Q2 2024", "..", "3", "30"⟩, ⟨"Q1 2024", "100", "5", "20"⟩]

/-- Wide table of `exC1`. -/
def exC1wide : List MigWideRow :=
  [⟨⟨2024, 3, 31⟩, some 100, some 20, some 5, some 120⟩,
   ⟨⟨2024, 6, 30⟩, none, some 30, some 3, none⟩]

/-- Long table of `exC1`. -/
def exC1long : List MigLongRow :=
  [⟨"Alberta", ⟨2024, 3, 31⟩, "immigrants", some 100⟩,
   ⟨"Alberta", ⟨2024, 3, 31⟩, "net_emigration", some 5⟩,
   ⟨"Alberta", ⟨2024, 3, 31⟩, "net_non_permanent_residents", some 20⟩,
   ⟨"Alberta", ⟨2024, 3, 31⟩, "total_pressure", some 120⟩,
   ⟨"Alberta", ⟨2024, 6, 30⟩, "immigrants", none⟩,
   ⟨"Alberta", ⟨2024, 6, 30⟩, "net_emigration", some 3⟩,
   ⟨"Alberta", ⟨2024, 6, 30⟩, "net_non_permanent_residents", some 30⟩,
   ⟨"Alberta", ⟨2024, 6, 30⟩, "total_pressure", none⟩]

/-- Closed instance of `mig_total_pressure_sum` at `exC1`: on the row whose
immigrants cell was the ".." placeholder, total_pressure is absent. -/
theorem mig_total_pressure_sum_witness :
    cleanIntlMigration exC1 = some (exC1wide, exC1long) ∧
    (⟨⟨2024, 6, 30⟩, none, some 30, some 3, none⟩ : MigWideRow) ∈ exC1wide ∧
    (⟨⟨2024, 6, 30⟩, none, some 30, some 3, none⟩ : MigWideRow).total_pressure =
      none :=
  ⟨by decide, by decide,
    (mig_total_pressure_sum exC1 exC1wide exC1long (by decide)
      ⟨⟨2024, 6, 30⟩, none, some 30, some 3, none⟩ (by decide)).2.2
      (Or.inl rfl)⟩

/-- Duplicate-quarter input: the same reference period on two rows. -/
def exC4 : List MigRawRow :=
  [⟨"Q1 2024", "1", "2", "3"⟩, ⟨"Q1 2024", "4", "5", "6"⟩]

/-- Wide table of `exC4`: two rows with the same quarter. -/
def exC4wide : List MigWideRow :=
  [⟨⟨2024, 3, 31⟩, some 1, some 3, some 2, some 4⟩,
   ⟨⟨2024, 3, 31⟩, some 4, some 6, some 5, some 10⟩]

/-- Long table of `exC4`. -/
def exC4long : List MigLongRow :=
  [⟨"Alberta", ⟨2024, 3, 31⟩, "immigrants", some 1⟩,
   ⟨"Alberta", ⟨2024, 3, 31⟩, "immigrants", some 4⟩,
   ⟨"Alberta", ⟨2024, 3, 31⟩, "net_emigration", some 2⟩,
   ⟨"Alberta", ⟨2024, 3, 31⟩, "net_emigration", some 5⟩,
   ⟨"Alberta", ⟨2024, 3, 31⟩, "net_non_permanent_residents", some 3⟩,
   ⟨"Alberta", ⟨2024, 3, 31⟩, "net_non_permanent_residents", some 6⟩,
   ⟨"Alberta", ⟨2024, 3, 31⟩, "total_pressure", some 4⟩,
   ⟨"Alberta", ⟨2024, 3, 31⟩, "total_pressure", some 10⟩]

/-- C4 is false as stated: with a duplicated reference period the cleaner
still succeeds, but the long table then has duplicate (quarter, component)
keys, and no pivot on component indexed by quarter can recover the two
same-quarter wide rows (one row per distinct quarter; pandas `pivot` raises
on the duplicate keys). -/
theorem mig_roundtrip_dup_cex :
    cleanIntlMigration exC4 = some (exC4wide, exC4long) ∧
    pivotSpecMig exC4long ≠ exC4wide :=
  ⟨by decide, by decide⟩

theorem pairwise_lt_of_sorted_nodup {α : Type} (f : α → Nat) (l : List α)
    (hs : l.Sorted (fun a b => f a ≤ f b)) (hn : (l.map f).Nodup) :
    l.Pairwise (fun a b => f a < f b) := by
  have h2 : l.Pairwise (fun a b => f a ≠ f b) := List.pairwise_map.mp hn
  exact (hs.and h2).imp (fun h => Nat.lt_of_le_of_ne h.1 h.2)

theorem eq_of_perm_pairwise_lt {α : Type} (f : α → Nat) :
    ∀ l₁ l₂ : List α, List.Perm l₁ l₂ →
      l₁.Pairwise (fun a b => f a < f b) →
      l₂.Pairwise (fun a b => f a < f b) → l₁ = l₂
  | [], l₂, hp, _, _ => hp.nil_eq
  | a :: t₁, [], hp, _, _ => by cases hp.symm.nil_eq
  | a :: t₁, b :: t₂, hp, h1, h2 => by
    have hab : a = b := by
      by_contra hne
      have ha3 : a ∈ t₂ :=
        (List.mem_cons.mp (hp.subset (List.mem_cons_self a t₁))).resolve_left hne
      have hb3 : b ∈ t₁ :=
        (List.mem_cons.mp
          (hp.symm.subset (List.mem_cons_self b t₂))).resolve_left
          (fun e => hne e.symm)
      have hlt1 : f a < f b := (List.pairwise_cons.mp h1).1 b hb3
      have hlt2 : f b < f a := (List.pairwise_cons.mp h2).1 a ha3
      omega
    subst hab
    rw [eq_of_perm_pairwise_lt f t₁ t₂ hp.cons_inv
      (List.pairwise_cons.mp h1).2 (List.pairwise_cons.mp h2).2]

theorem flatMap_const_nil {β γ : Type} :
    ∀ bs : List β, bs.flatMap (fun _ => ([] : List γ)) = []
  | [] => rfl
  | b :: bs => by rw [List.flatMap_cons, flatMap_const_nil bs]; rfl

theorem cons_flatMap_perm {β γ : Type} (x : β → γ) (g : β → List γ) :
    ∀ bs : List β,
      List.Perm (bs.flatMap (fun b => x b :: g b)) (bs.map x ++ bs.flatMap g)
  | [] => List.Perm.refl _
  | b :: bs => by
    simp only [List.flatMap_cons, List.map_cons, List.cons_append]
    refine List.Perm.cons _ ?_
    have h1 := List.Perm.append_left (g b) (cons_flatMap_perm x g bs)
    have h2 := List.Perm.append_right (bs.flatMap g)
      (@List.perm_append_comm _ (g b) (bs.map x))
    exact h1.trans (by simpa [List.append_assoc] using h2)

theorem flatMap_comm_perm {α β γ : Type} (f : α → β → γ) :
    ∀ (as : List α) (bs : List β),
      List.Perm (as.flatMap (fun a => bs.map (f a)))
        (bs.flatMap (fun b => as.map (fun a => f a b)))
  | [], bs => by
    simp only [List.flatMap_nil, List.map_nil]
    rw [flatMap_const_nil]
  | a :: as, bs => by
    simp only [List.flatMap_cons, List.map_cons]
    exact (List.Perm.append_left _ (flatMap_comm_perm f as bs)).trans
      (cons_flatMap_perm (fun b => f a b)
        (fun b => as.map (fun a => f a b)) bs).symm

theorem flatMap_perm_of_forall {α β : Type} {F G : α → List β} :
    ∀ l : List α, (∀ a ∈ l, List.Perm (F a) (G a)) →
      List.Perm (l.flatMap F) (l.flatMap G)
  | [], _ => List.Perm.refl _
  | a :: l, h => by
    simp only [List.flatMap_cons]
    exact (h a (List.mem_cons_self a l)).append
      (flatMap_perm_of_forall l (fun x hx => h x (List.mem_cons_of_mem a hx)))

theorem dedupAux_congr {α : Type} [DecidableEq α] :
    ∀ (l s1 s2 : List α), (∀ x ∈ l, (x ∈ s1 ↔ x ∈ s2)) →
      dedupAux s1 l = dedupAux s2 l
  | [], _, _, _ => rfl
  | a :: l, s1, s2, h => by
    rw [dedupAux, dedupAux]
    by_cases ha : a ∈ s1
    · rw [if_pos ha, if_pos ((h a (List.mem_cons_self a l)).mp ha)]
      exact dedupAux_congr l s1 s2 (fun x hx => h x (List.mem_cons_of_mem a hx))
    · rw [if_neg ha, if_neg (fun h2 => ha ((h a (List.mem_cons_self a l)).mpr h2))]
      congr 1
      refine dedupAux_congr l (a :: s1) (a :: s2) (fun x hx => ?_)
      have := h x (List.mem_cons_of_mem a hx)
      simp only [List.mem_cons, this]

/-- One wide row's block of the long table, in component rank order. -/
def canonBlock (w : MigWideRow) : List MigLongRow :=
  [⟨"Alberta", w.quarter, "immigrants", w.immigrants⟩,
   ⟨"Alberta", w.quarter, "net_emigration", w.net_emigration⟩,
   ⟨"Alberta", w.quarter, "net_non_permanent_residents",
     w.net_non_permanent_residents⟩,
   ⟨"Alberta", w.quarter, "total_pressure", w.total_pressure⟩]

/-- Row-major, rank-ordered form of the long table. -/
def canonLong (ws : List MigWideRow) : List MigLongRow := ws.flatMap canonBlock

theorem migGet_imm (w : MigWideRow) : migGet w "immigrants" = w.immigrants := rfl

theorem migGet_nnpr (w : MigWideRow) :
    migGet w "net_non_permanent_residents" = w.net_non_permanent_residents := rfl

theorem migGet_nem (w : MigWideRow) :
    migGet w "net_emigration" = w.net_emigration := rfl

theorem migGet_tp (w : MigWideRow) :
    migGet w "total_pressure" = w.total_pressure := rfl

theorem meltWide_perm_canonLong (ws : List MigWideRow) :
    List.Perm (meltWide ws) (canonLong ws) := by
  refine (flatMap_comm_perm
    (fun c w => (⟨"Alberta", w.quarter, c, migGet w c⟩ : MigLongRow))
    migComponents ws).trans ?_
  refine flatMap_perm_of_forall ws (fun w _ => ?_)
  show List.Perm
    [(⟨"Alberta", w.quarter, "immigrants", migGet w "immigrants"⟩ : MigLongRow),
     ⟨"Alberta", w.quarter, "net_non_permanent_residents",
       migGet w "net_non_permanent_residents"⟩,
     ⟨"Alberta", w.quarter, "net_emigration", migGet w "net_emigration"⟩,
     ⟨"Alberta", w.quarter, "total_pressure", migGet w "total_pressure"⟩]
    (canonBlock w)
  rw [migGet_imm, migGet_nnpr, migGet_nem, migGet_tp]
  exact List.Perm.cons _ (List.Perm.swap _ _ _)

theorem compRank_lt (c : String) : compRank c < 4 := by
  unfold compRank
  split
  · omega
  · split
    · omega
    · split <;> omega

theorem mem_canonBlock {w : MigWideRow} {e : MigLongRow}
    (h : e ∈ canonBlock w) : e.quarter = w.quarter := by
  rcases h with _ | ⟨_, _ | ⟨_, _ | ⟨_, _ | ⟨_, h⟩⟩⟩⟩ <;> first | rfl | cases h

theorem mem_canonLong {ws : List MigWideRow} {e : MigLongRow}
    (h : e ∈ canonLong ws) : ∃ v ∈ ws, e.quarter = v.quarter := by
  rcases List.mem_flatMap.mp h with ⟨v, hv, he⟩
  exact ⟨v, hv, mem_canonBlock he⟩

theorem canonBlock_pairwise (w : MigWideRow) :
    (canonBlock w).Pairwise (fun a b => longKey a < longKey b) := by
  unfold canonBlock
  refine List.Pairwise.cons ?_ (List.Pairwise.cons ?_
    (List.Pairwise.cons ?_ (List.Pairwise.cons ?_ List.Pairwise.nil)))
  all_goals intro e he
  all_goals fin_cases he
  all_goals exact Nat.add_lt_add_left (by
    first
    | exact (by decide : compRank "immigrants" < compRank "net_emigration")
    | exact (by decide :
        compRank "immigrants" < compRank "net_non_permanent_residents")
    | exact (by decide : compRank "immigrants" < compRank "total_pressure")
    | exact (by decide :
        compRank "net_emigration" < compRank "net_non_permanent_residents")
    | exact (by decide : compRank "net_emigration" < compRank "total_pressure")
    | exact (by decide :
        compRank "net_non_permanent_residents" < compRank "total_pressure")) _

theorem canonLong_pairwise :
    ∀ ws : List MigWideRow,
      ws.Pairwise (fun a b => a.quarter.key < b.quarter.key) →
      (canonLong ws).Pairwise (fun a b => longKey a < longKey b)
  | [], _ => List.Pairwise.nil
  | w :: ws, hp => by
    obtain ⟨hhead, htail⟩ := List.pairwise_cons.mp hp
    show ((canonBlock w) ++ canonLong ws).Pairwise _
    rw [List.pairwise_append]
    refine ⟨canonBlock_pairwise w, canonLong_pairwise ws htail, ?_⟩
    intro x hx y hy
    obtain ⟨v, hv, hyq⟩ := mem_canonLong hy
    have hxq : x.quarter = w.quarter := mem_canonBlock hx
    have h1 : longKey x < (w.quarter.key + 1) * 4 := by
      unfold longKey
      rw [hxq]
      have := compRank_lt x.component
      omega
    have h2 : v.quarter.key * 4 ≤ longKey y := by
      unfold longKey
      rw [hyq]
      omega
    have h3 := hhead v hv
    omega

theorem daysInMonth_bounds (y m : Nat) :
    1 ≤ daysInMonth y m ∧ daysInMonth y m ≤ 31 := by
  unfold daysInMonth
  split
  · split <;> omega
  · split <;> omega

theorem parseRefPeriod_valid {s : String} {dt : Date}
    (h : parseRefPeriod s = some dt) :
    1 ≤ dt.month ∧ dt.month ≤ 12 ∧ 1 ≤ dt.day ∧ dt.day ≤ 31 := by
  unfold parseRefPeriod at h
  rcases hl : stripChars s.toList with _ | ⟨c, _ | ⟨d, rest⟩⟩ <;> rw [hl] at h <;>
    dsimp only at h
  · cases h
  · cases h
  · split at h
    · split at h
      · rw [Option.some_inj] at h
        subst h
        have hb := daysInMonth_bounds
          (natOfDigits (rest.dropWhile (fun x => x == ' ')))
          ((d.toNat - '0'.toNat) * 3)
        refine ⟨?_, ?_, ?_, ?_⟩ <;> dsimp only <;> omega
      · cases h
    · cases h

theorem migRows_quarter_valid :
    ∀ (rows : List MigRawRow) (ws : List MigWideRow), migRows rows = some ws →
      ∀ r ∈ ws, 1 ≤ r.quarter.month ∧ r.quarter.month ≤ 12 ∧
        1 ≤ r.quarter.day ∧ r.quarter.day ≤ 31
  | [], ws, h => by
    rw [migRows, Option.some_inj] at h
    subst h
    exact fun r hr => absurd hr (List.not_mem_nil r)
  | r0 :: rs, ws, h => by
    rw [migRows] at h
    cases hm : migRow r0 with
    | none => rw [hm] at h; cases h
    | some w0 =>
      cases hms : migRows rs with
      | none => rw [hm, hms] at h; cases h
      | some ws' =>
        rw [hm, hms, Option.some_inj] at h
        subst h
        intro r hr
        rcases List.mem_cons.mp hr with rfl | h2
        · unfold migRow at hm
          cases hp : parseRefPeriod r0.reference_period with
          | none => rw [hp] at hm; cases hm
          | some q =>
            rw [hp] at hm
            simp only [Option.map_some'] at hm
            rw [Option.some_inj] at hm
            subst hm
            exact parseRefPeriod_valid hp
        · exact migRows_quarter_valid rs ws' hms r h2

theorem date_eq_of_key_eq {a b : Date}
    (ha : 1 ≤ a.month ∧ a.month ≤ 12 ∧ 1 ≤ a.day ∧ a.day ≤ 31)
    (hb : 1 ≤ b.month ∧ b.month ≤ 12 ∧ 1 ≤ b.day ∧ b.day ≤ 31)
    (hk : a.key = b.key) : a = b := by
  obtain ⟨ay, am, ad⟩ := a
  obtain ⟨b1, bm, bd⟩ := b
  unfold Date.key at hk
  dsimp only at ha hb hk
  have hy : ay = b1 := by omega
  have hm : am = bm := by omega
  have hd : ad = bd := by omega
  subst hy; subst hm; subst hd
  rfl

theorem pivotGet_cons_ne {e : MigLongRow} {rest : List MigLongRow} {q : Date}
    {c : String} (h : e.quarter ≠ q) :
    pivotGet (e :: rest) q c = pivotGet rest q c := by
  unfold pivotGet
  rw [List.find?_cons_of_neg]
  simp [h]

theorem pivotGet_block_ne (w : MigWideRow) (X : List MigLongRow) (q : Date)
    (c : String) (h : w.quarter ≠ q) :
    pivotGet (canonBlock w ++ X) q c = pivotGet X q c := by
  show pivotGet (⟨"Alberta", w.quarter, "immigrants", w.immigrants⟩ ::
    ⟨"Alberta", w.quarter, "net_emigration", w.net_emigration⟩ ::
    ⟨"Alberta", w.quarter, "net_non_permanent_residents",
      w.net_non_permanent_residents⟩ ::
    ⟨"Alberta", w.quarter, "total_pressure", w.total_pressure⟩ :: X) q c = _
  rw [pivotGet_cons_ne h, pivotGet_cons_ne h, pivotGet_cons_ne h,
    pivotGet_cons_ne h]

theorem pivotGet_block_imm (w : MigWideRow) (X : List MigLongRow) :
    pivotGet (canonBlock w ++ X) w.quarter "immigrants" = w.immigrants := by
  unfold pivotGet canonBlock
  rw [List.cons_append, List.find?_cons_of_pos]
  all_goals simp

theorem pivotGet_block_nem (w : MigWideRow) (X : List MigLongRow) :
    pivotGet (canonBlock w ++ X) w.quarter "net_emigration" =
      w.net_emigration := by
  unfold pivotGet canonBlock
  rw [List.cons_append, List.find?_cons_of_neg, List.cons_append,
    List.find?_cons_of_pos]
  all_goals simp

theorem pivotGet_block_nnpr (w : MigWideRow) (X : List MigLongRow) :
    pivotGet (canonBlock w ++ X) w.quarter "net_non_permanent_residents" =
      w.net_non_permanent_residents := by
  unfold pivotGet canonBlock
  rw [List.cons_append, List.find?_cons_of_neg, List.cons_append,
    List.find?_cons_of_neg, List.cons_append, List.find?_cons_of_pos]
  all_goals simp

theorem pivotGet_block_tp (w : MigWideRow) (X : List MigLongRow) :
    pivotGet (canonBlock w ++ X) w.quarter "total_pressure" =
      w.total_pressure := by
  unfold pivotGet canonBlock
  rw [List.cons_append, List.find?_cons_of_neg, List.cons_append,
    List.find?_cons_of_neg, List.cons_append, List.find?_cons_of_neg,
    List.cons_append, List.find?_cons_of_pos]
  all_goals simp

theorem pivot_canon :
    ∀ ws : List MigWideRow,
      ws.Pairwise (fun a b => a.quarter.key < b.quarter.key) →
      pivotSpecMig (canonLong ws) = ws
  | [], _ => rfl
  | w :: ws, hp => by
    obtain ⟨hhead, htail⟩ := List.pairwise_cons.mp hp
    have hne : ∀ x ∈ (canonLong ws).map (fun e => e.quarter), x ≠ w.quarter := by
      intro x hx heq
      rcases List.mem_map.mp hx with ⟨e, he, rfl⟩
      obtain ⟨v, hv, hq⟩ := mem_canonLong he
      have hlt := hhead v hv
      rw [hq] at heq
      rw [heq] at hlt
      exact Nat.lt_irrefl _ hlt
    have hcl : canonLong (w :: ws) = canonBlock w ++ canonLong ws := rfl
    have hmap : (canonLong (w :: ws)).map (fun e => e.quarter) =
        w.quarter :: w.quarter :: w.quarter :: w.quarter ::
          (canonLong ws).map (fun e => e.quarter) := rfl
    have hded : dedupF ((canonLong (w :: ws)).map (fun e => e.quarter)) =
        w.quarter :: dedupF ((canonLong ws).map (fun e => e.quarter)) := by
      rw [hmap]
      show dedupAux [] _ = _
      rw [dedupAux, if_neg (List.not_mem_nil _), dedupAux,
        if_pos (List.mem_cons_self _ _), dedupAux,
        if_pos (List.mem_cons_self _ _), dedupAux,
        if_pos (List.mem_cons_self _ _)]
      congr 1
      refine dedupAux_congr _ _ _ (fun x hx => ?_)
      have := hne x hx
      simp [this]
    show ((dedupF ((canonLong (w :: ws)).map (fun e => e.quarter))).map
      (fun q => (⟨q, pivotGet (canonLong (w :: ws)) q "immigrants",
        pivotGet (canonLong (w :: ws)) q "net_non_permanent_residents",
        pivotGet (canonLong (w :: ws)) q "net_emigration",
        pivotGet (canonLong (w :: ws)) q "total_pressure"⟩ : MigWideRow))) =
      w :: ws
    rw [hded, List.map_cons]
    have hrow : (⟨w.quarter,
        pivotGet (canonLong (w :: ws)) w.quarter "immigrants",
        pivotGet (canonLong (w :: ws)) w.quarter "net_non_permanent_residents",
        pivotGet (canonLong (w :: ws)) w.quarter "net_emigration",
        pivotGet (canonLong (w :: ws)) w.quarter "total_pressure"⟩ : MigWideRow) =
        w := by
      rw [hcl, pivotGet_block_imm, pivotGet_block_nnpr, pivotGet_block_nem,
        pivotGet_block_tp]
    rw [hrow]
    have htailmap : (dedupF ((canonLong ws).map (fun e => e.quarter))).map
        (fun q => (⟨q, pivotGet (canonLong (w :: ws)) q "immigrants",
          pivotGet (canonLong (w :: ws)) q "net_non_permanent_residents",
          pivotGet (canonLong (w :: ws)) q "net_emigration",
          pivotGet (canonLong (w :: ws)) q "total_pressure"⟩ : MigWideRow)) =
        pivotSpecMig (canonLong ws) := by
      refine List.map_congr_left (fun x hx => ?_)
      have hxne : w.quarter ≠ x := by
        intro heq
        exact hne x ((mem_dedupF _ x).mp hx) heq.symm
      rw [hcl, pivotGet_block_ne _ _ _ _ hxne, pivotGet_block_ne _ _ _ _ hxne,
        pivotGet_block_ne _ _ _ _ hxne, pivotGet_block_ne _ _ _ _ hxne]
    rw [htailmap, pivot_canon ws htail]

/-- C4 amended: for every successful run whose wide table has pairwise
distinct quarters, pivoting the long table back to wide on the component
column recovers the wide table exactly; with a duplicated quarter the long
table has duplicate (quarter, component) keys and the pivot cannot recover
the wide table (pandas raises there). -/
theorem mig_roundtrip_distinct :
    ∀ rows w l, cleanIntlMigration rows = some (w, l) →
      (w.map (fun r => r.quarter)).Nodup →
      pivotSpecMig l = w := by
  intro rows w l h hnd
  unfold cleanIntlMigration at h
  cases hms : migRows rows with
  | none => rw [hms] at h; cases h
  | some ws =>
    rw [hms] at h
    simp only [Option.map_some'] at h
    rw [Option.some_inj, Prod.mk.injEq] at h
    obtain ⟨hw, hl⟩ := h
    subst hw
    subst hl
    have hvalid : ∀ r ∈ sortByKey (fun v => v.quarter.key) ws,
        1 ≤ r.quarter.month ∧ r.quarter.month ≤ 12 ∧
        1 ≤ r.quarter.day ∧ r.quarter.day ≤ 31 :=
      fun r hr => migRows_quarter_valid rows ws hms r
        ((sortByKey_perm _ _).subset hr)
    have hnodup2 : (sortByKey (fun v => v.quarter.key) ws).Pairwise
        (fun a b => a.quarter ≠ b.quarter) := List.pairwise_map.mp hnd
    have hstrict : (sortByKey (fun v => v.quarter.key) ws).Pairwise
        (fun a b => a.quarter.key < b.quarter.key) := by
      have h1 := List.Pairwise.and
        (sortByKey_sorted (fun v => v.quarter.key) ws) hnodup2
      refine h1.imp_of_mem ?_
      intro a b ha hb hab
      rcases hab with ⟨hle, hne⟩
      rcases Nat.lt_or_ge a.quarter.key b.quarter.key with hlt | hge
      · exact hlt
      · exact absurd (date_eq_of_key_eq (hvalid a ha) (hvalid b hb)
          (Nat.le_antisymm hle hge)) hne
    have hperm : List.Perm
        (sortByKey longKey (meltWide (sortByKey (fun v => v.quarter.key) ws)))
        (canonLong (sortByKey (fun v => v.quarter.key) ws)) :=
      (sortByKey_perm _ _).trans (meltWide_perm_canonLong _)
    have hcanon := canonLong_pairwise _ hstrict
    have hlstrict :
        (sortByKey longKey
          (meltWide (sortByKey (fun v => v.quarter.key) ws))).Pairwise
          (fun a b => longKey a < longKey b) := by
      refine pairwise_lt_of_sorted_nodup longKey _ (sortByKey_sorted _ _) ?_
      have h2 : ((canonLong (sortByKey (fun v => v.quarter.key) ws)).map
          longKey).Nodup :=
        List.pairwise_map.mpr (hcanon.imp Nat.ne_of_lt)
      exact ((hperm.map longKey).nodup_iff).mpr h2
    rw [eq_of_perm_pairwise_lt longKey _ _ hperm hlstrict hcanon]
    exact pivot_canon _ hstrict

/-- Closed instance of `mig_roundtrip_distinct` at `exC1`, whose two quarters
are distinct. -/
theorem mig_roundtrip_distinct_witness :
    cleanIntlMigration exC1 = some (exC1wide, exC1long) ∧
    (exC1wide.map (fun r => r.quarter)).Nodup ∧
    pivotSpecMig exC1long = exC1wide :=
  ⟨by decide, by decide,
    mig_roundtrip_distinct exC1 exC1wide exC1long (by decide) (by decide)⟩

/-! ### 5. Interprovincial migration (`clean_interprov_migration`) -/

/-- Long output row: flow label, quarter label, numeric count, parsed
quarter-end date (columns of the returned long table). -/
structure IpLongRow where
  flow_type : String
  quarter_label : String
  people : ℚ
  quarter : Date
deriving DecidableEq, Repr

/-- Wide output row. -/
structure IpWideRow where
  quarter : Date
  interprov_in : Option ℚ
  interprov_out : Option ℚ
  interprov_net : Option ℚ
deriving DecidableEq, Repr

/-- Column-name normalization of line 233: strip, lower-case, replace
non-breaking spaces by plain spaces. -/
def normColName (s : String) : String :=
  ⟨((stripChars s.toList).map Char.toLower).map
    (fun c => if c == ' ' then ' ' else c)⟩

/-- Whether the pattern starts the text. -/
def beginsWith : List Char → List Char → Bool
  | [], _ => true
  | _ :: _, [] => false
  | p :: ps, c :: cs => p == c && beginsWith ps cs

/-- Whether the pattern occurs inside the text. -/
def containsSeq (pat : List Char) : List Char → Bool
  | [] => pat.isEmpty
  | c :: cs => beginsWith pat (c :: cs) || containsSeq pat cs

/-- Python substring containment, as used by the rename loop on lines
236-241. -/
def containsSub (pat s : String) : Bool := containsSeq pat.toList s.toList

/-- Tail of word splitting with an accumulator for the current word. -/
def splitWordsAux : List Char → List Char → List (List Char)
  | acc, [] => if acc.isEmpty then [] else [acc.reverse]
  | acc, c :: cs =>
    if c == ' ' then
      if acc.isEmpty then splitWordsAux [] cs
      else acc.reverse :: splitWordsAux [] cs
    else splitWordsAux (c :: acc) cs

/-- Python `str.split()` on the space-separated labels of this file. -/
def splitWords (l : List Char) : List (List Char) := splitWordsAux [] l

/-- Embedding of `to_q_end` (lines 224-228): strip the label, split into
exactly two words, drop every "Q" from the first, parse both as integers,
and build the quarter-end date.  Any failure — including a quarter number
outside 1-4, which makes `pd.Timestamp` raise on month 0 or month > 12 —
fails the cleaner. -/
def parseQLabel (s : String) : Option Date :=
  match splitWords (stripChars s.toList) with
  | [qw, yw] =>
    if !((qw.filter (fun c => !(c == 'Q'))).isEmpty) &&
        (qw.filter (fun c => !(c == 'Q'))).all Char.isDigit &&
        !(yw.isEmpty) && yw.all Char.isDigit then
      if 1 ≤ natOfDigits (qw.filter (fun c => !(c == 'Q'))) ∧
          natOfDigits (qw.filter (fun c => !(c == 'Q'))) ≤ 4 then
        some ⟨natOfDigits yw,
          natOfDigits (qw.filter (fun c => !(c == 'Q'))) * 3,
          daysInMonth (natOfDigits yw)
            (natOfDigits (qw.filter (fun c => !(c == 'Q'))) * 3)⟩
      else none
    else none
  | _ => none

/-- Count parsing of lines 220-222: strip commas, strip whitespace, then
`astype(float)`, which raises on failure. -/
def parsePeople (cell : String) : Option ℚ := parseFloat (strip (stripCommas cell))

/-- Data rows consumed by the cleaner: `df.iloc[1:3]`, rows 1-2 (0-indexed)
of the data after the header. -/
def ipSlice {α : Type} (rows : List α) : List α := (rows.drop 1).take 2

/-- Pandas melt of the flow rows against the quarter-label columns
(line 219), column-major; the data is rectangular (`read_csv` pads), so each
row has one cell per column. -/
def ipMelt (qcols : List String) (data : List (String × List String)) :
    List (String × String × String) :=
  qcols.enum.flatMap (fun qj =>
    data.filterMap (fun r => (r.2[qj.1]?).map (fun cell => (r.1, qj.2, cell))))

/-- Vectorized fallible map: one failure fails the whole column operation. -/
def optMap {α β : Type} (f : α → Option β) : List α → Option (List β)
  | [] => some []
  | a :: l =>
    match f a, optMap f l with
    | some b, some bs => some (b :: bs)
    | _, _ => none

/-- The `astype(float)` pass over the melted counts (lines 220-222). -/
def ipFloats (melted : List (String × String × String)) :
    Option (List (String × String × ℚ)) :=
  optMap (fun t => (parsePeople t.2.2).map (fun v => (t.1, t.2.1, v))) melted

/-- The `to_q_end` pass over the quarter labels (line 230). -/
def ipDated (l : List (String × String × ℚ)) : Option (List IpLongRow) :=
  optMap (fun t => (parseQLabel t.2.1).map
    (fun q => (⟨t.1, t.2.1, t.2.2, q⟩ : IpLongRow))) l

/-- Cell of the pivoted table under a canonical column: `[f]` is the one flow
column renamed to the canonical name (value of that (quarter, flow) entry,
absent for a missing combination); an absent canonical column defaults to
0.0 (lines 243-246). -/
def ipGet (l : List IpLongRow) (q : Date) : List String → Option ℚ
  | [f] => (l.find? (fun r => r.quarter == q && r.flow_type == f)).map
      (fun r => r.people)
  | _ => some 0

/-- Flow columns renamed to `interprov_in`: normalized name contains
"in-migrants" (line 238). -/
def ipInFlows (l : List IpLongRow) : List String :=
  (dedupF (l.map (fun r => r.flow_type))).filter
    (fun f => containsSub "in-migrants" (normColName f))

/-- Flow columns renamed to `interprov_out`: normalized name contains
"out-migrants" but not "in-migrants" (the `elif` on line 240). -/
def ipOutFlows (l : List IpLongRow) : List String :=
  (dedupF (l.map (fun r => r.flow_type))).filter
    (fun f => !containsSub "in-migrants" (normColName f) &&
      containsSub "out-migrants" (normColName f))

/-- Embedding of the pivot and rename of lines 232-249: `pivot` raises on a
duplicate (quarter, flow_type) key; its index is the sorted distinct
quarters; two flow columns renamed onto the same canonical name make the
later single-column assignment raise; net = in − out; sorted by quarter. -/
def ipPivot (l : List IpLongRow) : Option (List IpWideRow) :=
  if (l.map (fun r => (r.quarter, r.flow_type))).Nodup then
    if (ipInFlows l).length ≤ 1 ∧ (ipOutFlows l).length ≤ 1 then
      some ((sortByKey Date.key (dedupF (l.map (fun r => r.quarter)))).map
        (fun q =>
          ⟨q, ipGet l q (ipInFlows l), ipGet l q (ipOutFlows l),
            (ipGet l q (ipInFlows l)).bind (fun a =>
              (ipGet l q (ipOutFlows l)).map (fun b => qsub a b))⟩))
    else none
  else none

/-- The whole interprovincial cleaner over the header's quarter-label columns
and the data rows (first cell of each row is the flow label). -/
def cleanInterprov (qcols : List String) (rows : List (String × List String)) :
    Option (List IpLongRow × List IpWideRow) :=
  match ipFloats (ipMelt qcols (ipSlice rows)) with
  | none => none
  | some l2 =>
    match ipDated l2 with
    | none => none
    | some long => (ipPivot long).map (fun wide => (long, wide))

theorem optMap_mem {α β : Type} {f : α → Option β} :
    ∀ {l : List α} {bs : List β}, optMap f l = some bs →
      ∀ b ∈ bs, ∃ a ∈ l, f a = some b
  | [], bs, h => by
    rw [optMap, Option.some_inj] at h
    subst h
    exact fun b hb => absurd hb (List.not_mem_nil b)
  | a :: l, bs, h => by
    rw [optMap] at h
    cases hfa : f a with
    | none => rw [hfa] at h; cases h
    | some b0 =>
      cases hol : optMap f l with
      | none => rw [hfa, hol] at h; cases h
      | some bs' =>
        rw [hfa, hol, Option.some_inj] at h
        subst h
        intro b hb
        rcases List.mem_cons.mp hb with rfl | h2
        · exact ⟨a, List.mem_cons_self a l, hfa⟩
        · rcases optMap_mem hol b h2 with ⟨a2, ha2, hfa2⟩
          exact ⟨a2, List.mem_cons_of_mem a ha2, hfa2⟩

theorem ipMelt_flow {qcols : List String} {data : List (String × List String)}
    {t : String × String × String} (h : t ∈ ipMelt qcols data) :
    ∃ r ∈ data, t.1 = r.1 := by
  rcases List.mem_flatMap.mp h with ⟨qj, _, ht⟩
  rcases List.mem_filterMap.mp ht with ⟨r, hr, he⟩
  cases hc : r.2[qj.1]? with
  | none => rw [hc] at he; cases he
  | some cell =>
    rw [hc] at he
    simp only [Option.map_some', Option.some_inj] at he
    exact ⟨r, hr, by rw [← he]⟩

theorem cleanIp_flows {qcols : List String} {rows : List (String × List String)}
    {l2 : List (String × String × ℚ)} {lng : List IpLongRow}
    (hf : ipFloats (ipMelt qcols (ipSlice rows)) = some l2)
    (hd : ipDated l2 = some lng) :
    ∀ e ∈ lng, ∃ dr ∈ ipSlice rows, e.flow_type = dr.1 := by
  intro e he
  rcases optMap_mem hd e he with ⟨t, ht, hde⟩
  rcases Option.map_eq_some'.mp hde with ⟨q, _, hq2⟩
  rcases optMap_mem hf t ht with ⟨m, hm, hfm⟩
  rcases Option.map_eq_some'.mp hfm with ⟨v, _, hv2⟩
  rcases ipMelt_flow hm with ⟨dr, hdr, hflow⟩
  refine ⟨dr, hdr, ?_⟩
  rw [← hq2]
  show t.1 = dr.1
  rw [← hv2]
  exact hflow

/-- C5: in every successful run, every wide row satisfies
interprov_net = interprov_in − interprov_out; when no consumed flow row's
normalized label contains "out-migrants" the out column is 0.0 everywhere
(and symmetrically for "in-migrants"); and the wide table is sorted
ascending by quarter. -/
theorem ip_net_default_sorted :
    ∀ qcols rows long wide, cleanInterprov qcols rows = some (long, wide) →
      (∀ r ∈ wide, r.interprov_net = r.interprov_in.bind (fun a =>
        r.interprov_out.map (fun b => a - b))) ∧
      ((∀ dr ∈ ipSlice rows,
          containsSub "out-migrants" (normColName dr.1) = false) →
        ∀ r ∈ wide, r.interprov_out = some 0) ∧
      ((∀ dr ∈ ipSlice rows,
          containsSub "in-migrants" (normColName dr.1) = false) →
        ∀ r ∈ wide, r.interprov_in = some 0) ∧
      wide.Sorted (fun a b => a.quarter.key ≤ b.quarter.key) := by
  intro qcols rows long wide h
  unfold cleanInterprov at h
  cases hf : ipFloats (ipMelt qcols (ipSlice rows)) with
  | none => rw [hf] at h; cases h
  | some l2 =>
    rw [hf] at h
    dsimp only at h
    cases hd : ipDated l2 with
    | none => rw [hd] at h; cases h
    | some lng =>
      rw [hd] at h
      dsimp only at h
      unfold ipPivot at h
      split at h
      · split at h
        · simp only [Option.map_some'] at h
          rw [Option.some_inj, Prod.mk.injEq] at h
          obtain ⟨hlong, hwide⟩ := h
          subst hlong
          subst hwide
          refine ⟨fun r hr => ?_, fun hout r hr => ?_, fun hin r hr => ?_, ?_⟩
          · rcases List.mem_map.mp hr with ⟨q, _, rfl⟩
            show (ipGet lng q (ipInFlows lng)).bind (fun a =>
              (ipGet lng q (ipOutFlows lng)).map (fun b => qsub a b)) = _
            cases ipGet lng q (ipInFlows lng) <;>
              cases ipGet lng q (ipOutFlows lng) <;> simp [qsub_eq]
          · rcases List.mem_map.mp hr with ⟨q, _, rfl⟩
            show ipGet lng q (ipOutFlows lng) = some 0
            have hnil : ipOutFlows lng = [] := by
              rw [ipOutFlows, List.filter_eq_nil_iff]
              intro f hfm
              rcases List.mem_map.mp ((mem_dedupF _ f).mp hfm) with ⟨e, he, rfl⟩
              rcases cleanIp_flows hf hd e he with ⟨dr, hdr, hfl⟩
              rw [hfl, hout dr hdr]
              simp
            rw [hnil]
            rfl
          · rcases List.mem_map.mp hr with ⟨q, _, rfl⟩
            show ipGet lng q (ipInFlows lng) = some 0
            have hnil : ipInFlows lng = [] := by
              rw [ipInFlows, List.filter_eq_nil_iff]
              intro f hfm
              rcases List.mem_map.mp ((mem_dedupF _ f).mp hfm) with ⟨e, he, rfl⟩
              rcases cleanIp_flows hf hd e he with ⟨dr, hdr, hfl⟩
              rw [hfl, hin dr hdr]
              simp
            rw [hnil]
            rfl
          · refine List.pairwise_map.mpr ?_
            exact (sortByKey_sorted Date.key _).imp (fun hab => hab)
        · cases h
      · cases h

/-- Success input for the interprovincial cleaner: header row skipped, one
in-flow row, no out-flow row. -/
def exC5qc : List String := ["Q1 2024"]

/-- Data rows of the success input (first row is the skipped header
continuation). -/
def exC5rows : List (String × List String) := [("h", ["0"]), ("In-migrants", ["5"])]

/-- Long table of the success input. -/
def exC5long : List IpLongRow := [⟨"In-migrants", "Q1 2024", 5, ⟨2024, 3, 31⟩⟩]

/-- Wide table of the success input: the out column defaults to 0.0. -/
def exC5wide : List IpWideRow := [⟨⟨2024, 3, 31⟩, some 5, some 0, some 5⟩]

/-- Closed instance of `ip_net_default_sorted`: with no "out-migrants" row the
out column is 0.0, and net = in − out on the emitted row. -/
theorem ip_net_default_sorted_witness :
    cleanInterprov exC5qc exC5rows = some (exC5long, exC5wide) ∧
    (⟨⟨2024, 3, 31⟩, some 5, some 0, some 5⟩ : IpWideRow).interprov_out = some 0 ∧
    (⟨⟨2024, 3, 31⟩, some 5, some 0, some 5⟩ : IpWideRow).interprov_net =
      (some (5 : ℚ)).bind (fun a => (some (0 : ℚ)).map (fun b => a - b)) :=
  ⟨by decide,
    (ip_net_default_sorted exC5qc exC5rows exC5long exC5wide (by decide)).2.1
      (by decide) ⟨⟨2024, 3, 31⟩, some 5, some 0, some 5⟩ (by decide),
    (ip_net_default_sorted exC5qc exC5rows exC5long exC5wide (by decide)).1
      ⟨⟨2024, 3, 31⟩, some 5, some 0, some 5⟩ (by decide)⟩

/-- C7 amended: the cleaner's output depends only on the header and on data
rows 1-2 (0-indexed) — the slice `iloc[1:3]`, which skips the first data row;
no data row outside that slice influences the output. -/
theorem ip_depends_on_slice :
    ∀ (qcols : List String) (rows rows2 : List (String × List String)),
      ipSlice rows = ipSlice rows2 →
      cleanInterprov qcols rows = cleanInterprov qcols rows2 := by
  intro qcols rows rows2 h
  unfold cleanInterprov
  rw [h]

/-- Quarter-label header of the C7 example. -/
def exC7qc : List String := ["Q1 2024", "Q2 2024"]

/-- C7 example data rows. -/
def exC7a : List (String × List String) :=
  [("hdr", ["0", "0"]), ("In-migrants", ["10", "20"]),
   ("Out-migrants", ["3", "4"]), ("Other", ["9", "9"])]

/-- The same rows with only data row 1 (0-indexed) changed. -/
def exC7b : List (String × List String) :=
  [("hdr", ["0", "0"]), ("In-migrants", ["11", "20"]),
   ("Out-migrants", ["3", "4"]), ("Other", ["9", "9"])]

/-- The first rows with an extra trailing data row. -/
def exC7c : List (String × List String) :=
  [("hdr", ["0", "0"]), ("In-migrants", ["10", "20"]),
   ("Out-migrants", ["3", "4"]), ("Other", ["9", "9"]), ("Tail", ["1", "1"])]

/-- C7 is false as stated: two inputs that agree on data rows 2-3 (0-indexed)
and on the first data row, differing only in data row 1, give different
outputs — so the consumed rows are 1-2 (0-indexed), not 2-3. -/
theorem ip_row_slice_cex :
    exC7a.take 1 = exC7b.take 1 ∧
    exC7a.drop 2 = exC7b.drop 2 ∧
    cleanInterprov exC7qc exC7a ≠ cleanInterprov exC7qc exC7b :=
  ⟨by decide, by decide, by decide⟩

/-- Closed instance of `ip_depends_on_slice`: appending a data row beyond the
slice leaves the output unchanged. -/
theorem ip_depends_on_slice_witness :
    ipSlice exC7a = ipSlice exC7c ∧
    cleanInterprov exC7qc exC7a = cleanInterprov exC7qc exC7c :=
  ⟨by decide, ip_depends_on_slice exC7qc exC7a exC7c (by decide)⟩

/-- C10: when the long table has a duplicate (quarter, flow_type) key — in
particular when two distinct quarter-label columns parse to the same
quarter-end date — the cleaner raises instead of producing output; and on
every successful run the wide table has exactly one row per distinct quarter
of the long table. -/
theorem ip_dup_quarter_raises :
    ∀ (qcols : List String) (rows : List (String × List String)),
      ((∃ l2 lng, ipFloats (ipMelt qcols (ipSlice rows)) = some l2 ∧
          ipDated l2 = some lng ∧
          ¬ (lng.map (fun r => (r.quarter, r.flow_type))).Nodup) →
        cleanInterprov qcols rows = none) ∧
      (∀ long wide, cleanInterprov qcols rows = some (long, wide) →
        (wide.map (fun r => r.quarter)).Nodup ∧
        ∀ q, q ∈ wide.map (fun r => r.quarter) ↔
          q ∈ long.map (fun r => r.quarter)) := by
  intro qcols rows
  constructor
  · rintro ⟨l2, lng, hf, hd, hnd⟩
    unfold cleanInterprov
    rw [hf]
    dsimp only
    rw [hd]
    dsimp only
    unfold ipPivot
    rw [if_neg hnd]
    rfl
  · intro long wide h
    unfold cleanInterprov at h
    cases hf : ipFloats (ipMelt qcols (ipSlice rows)) with
    | none => rw [hf] at h; cases h
    | some l2 =>
      rw [hf] at h
      dsimp only at h
      cases hd : ipDated l2 with
      | none => rw [hd] at h; cases h
      | some lng =>
        rw [hd] at h
        dsimp only at h
        unfold ipPivot at h
        split at h
        · split at h
          · simp only [Option.map_some'] at h
            rw [Option.some_inj, Prod.mk.injEq] at h
            obtain ⟨hlong, hwide⟩ := h
            subst hlong
            subst hwide
            have hmap : (List.map (fun r => r.quarter)
                ((sortByKey Date.key
                  (dedupF (lng.map (fun r => r.quarter)))).map
                  (fun q => (⟨q, ipGet lng q (ipInFlows lng),
                    ipGet lng q (ipOutFlows lng),
                    (ipGet lng q (ipInFlows lng)).bind (fun a =>
                      (ipGet lng q (ipOutFlows lng)).map
                        (fun b => qsub a b))⟩ : IpWideRow)))) =
                sortByKey Date.key (dedupF (lng.map (fun r => r.quarter))) := by
              rw [List.map_map]
              exact List.map_id _
            rw [hmap]
            constructor
            · exact ((sortByKey_perm Date.key _).nodup_iff).mpr
                (nodup_dedupF _)
            · intro q
              rw [(sortByKey_perm Date.key _).mem_iff, mem_dedupF]
          · cases h
        · cases h

/-- Duplicate-quarter header: two distinct labels that parse to the same
quarter-end date (the second has two spaces). -/
def exC10qc : List String := ["Q1 2024", "Q1  2024"]

/-- Data rows of the duplicate-quarter example. -/
def exC10rows : List (String × List String) := [("x", ["0", "0"]), ("In-migrants", ["1", "2"])]

/-- Melted counts of the duplicate-quarter example. -/
def exC10l2 : List (String × String × ℚ) :=
  [("In-migrants", "Q1 2024", 1), ("In-migrants", "Q1  2024", 2)]

/-- Dated long rows of the duplicate-quarter example: the two labels carry
the same quarter-end date. -/
def exC10long : List IpLongRow :=
  [⟨"In-migrants", "Q1 2024", 1, ⟨2024, 3, 31⟩⟩,
   ⟨"In-migrants", "Q1  2024", 2, ⟨2024, 3, 31⟩⟩]

/-- Closed instance of `ip_dup_quarter_raises`: the duplicate-quarter input
makes the cleaner raise, and a successful run has one wide row per distinct
quarter. -/
theorem ip_dup_quarter_raises_witness :
    cleanInterprov exC10qc exC10rows = none ∧
    (exC5wide.map (fun r => r.quarter)).Nodup ∧
    ((⟨2024, 3, 31⟩ : Date) ∈ exC5wide.map (fun r => r.quarter) ↔
      (⟨2024, 3, 31⟩ : Date) ∈ exC5long.map (fun r => r.quarter)) :=
  ⟨(ip_dup_quarter_raises exC10qc exC10rows).1
      ⟨exC10l2, exC10long, by decide, by decide, by decide⟩,
    ((ip_dup_quarter_raises exC5qc exC5rows).2 exC5long exC5wide (by decide)).1,
    ((ip_dup_quarter_raises exC5qc exC5rows).2 exC5long exC5wide (by decide)).2
      ⟨2024, 3, 31⟩⟩

end AbHousing
